import Mathlib

/-!
Shallow embedding of the rainybook order book core
(`src/orderbook/book.rs` and `src/orderbook/mbp.rs`).

`BTreeMap` and `HashMap` are modelled as association lists whose keys are
kept in strictly increasing order; `u64` identifiers and quantities are
`Nat`, `i64` prices are `Int`.  The only arithmetic the code performs on
quantities is `current_size - fill_quantity` guarded by
`current_size >= fill_quantity`, so `Nat` subtraction agrees with `u64`
subtraction on every reachable path.
-/

set_option autoImplicit false

namespace Rainybook

/-! ### Sorted association lists: the model of `BTreeMap` / `HashMap` -/

section SList

variable {α : Type} {β : Type} [LinearOrder α]

/-- Keys appear in strictly increasing order (hence no duplicate keys). -/
def SortedKeys (l : List (α × β)) : Prop :=
  l.Pairwise fun p q => p.1 < q.1

instance sortedKeysDecidable (l : List (α × β)) : Decidable (SortedKeys l) := by
  unfold SortedKeys
  infer_instance

/-- Lookup by key (`BTreeMap::get` / `HashMap::get`). -/
def findVal (k : α) : List (α × β) → Option β
  | [] => none
  | (k', v) :: t => if k' = k then some v else findVal k t

/-- Insert or replace (`BTreeMap::insert` / `HashMap::insert`), keeping keys sorted. -/
def insertVal (k : α) (v : β) : List (α × β) → List (α × β)
  | [] => [(k, v)]
  | (k', v') :: t =>
    if k < k' then (k, v) :: (k', v') :: t
    else if k = k' then (k, v) :: t
    else (k', v') :: insertVal k v t

/-- Remove a key (`BTreeMap::remove` / `HashMap::remove`). -/
def eraseKey (k : α) : List (α × β) → List (α × β)
  | [] => []
  | (k', v') :: t => if k' = k then t else (k', v') :: eraseKey k t

end SList

/-! ### Data model (`book.rs`) -/

/-- `enum Side`. -/
inductive Side where
  | Bid
  | Ask
  deriving DecidableEq, Repr

/-- `enum OrderBookError`. -/
inductive OrderBookError where
  | OrderNotFound (order_id : Nat)
  | FillQuantityExceedsOrderSize (requested available : Nat)
  deriving DecidableEq, Repr

/-- `struct Order`. -/
structure Order where
  order_id : Nat
  side : Side
  price : Int
  size : Nat
  deriving DecidableEq, Repr

/-- `struct OrderLevel`: one price level and its `HashMap<u64, Order>`. -/
structure OrderLevel where
  price : Int
  orders : List (Nat × Order)
  deriving DecidableEq, Repr

namespace OrderLevel

/-- `OrderLevel::new`. -/
def new (price : Int) : OrderLevel :=
  { price := price, orders := [] }

/-- `OrderLevel::total_qty`: iterates over orders and sums size. -/
def total_qty (l : OrderLevel) : Nat :=
  (l.orders.map fun p => p.2.size).sum

/-- `OrderLevel::add_order` (insert, overwriting an existing entry). -/
def add_order (l : OrderLevel) (o : Order) : OrderLevel :=
  { l with orders := insertVal o.order_id o l.orders }

/-- `OrderLevel::remove_order` (no-op if not found); returns the removed order. -/
def remove_order (l : OrderLevel) (order_id : Nat) : Option Order × OrderLevel :=
  match findVal order_id l.orders with
  | none => (none, l)
  | some o => (some o, { l with orders := eraseKey order_id l.orders })

/-- `OrderLevel::modify_order`: set the order's size in place. -/
def modify_order (l : OrderLevel) (order_id : Nat) (new_size : Nat) :
    Except OrderBookError OrderLevel :=
  match findVal order_id l.orders with
  | none => .error (.OrderNotFound order_id)
  | some o =>
    .ok { l with orders := insertVal order_id { o with size := new_size } l.orders }

/-- `OrderLevel::get_order`. -/
def get_order (l : OrderLevel) (order_id : Nat) : Option Order :=
  findVal order_id l.orders

/-- `OrderLevel::is_empty`. -/
def is_empty (l : OrderLevel) : Bool :=
  l.orders.isEmpty

/-- `OrderLevel::order_count`. -/
def order_count (l : OrderLevel) : Nat :=
  l.orders.length

end OrderLevel

/-- `struct OrderBook`: two sorted side collections plus the
`order_id -> price` index (the side lives in the stored `Order`). -/
structure OrderBook where
  bids : List (Int × OrderLevel)
  asks : List (Int × OrderLevel)
  order_index : List (Nat × Int)
  deriving DecidableEq, Repr

namespace OrderBook

/-- `OrderBook::new` / `Default`. -/
def empty : OrderBook :=
  { bids := [], asks := [], order_index := [] }

/-- `OrderBook::levels_mut`, read access. -/
def levels (b : OrderBook) : Side → List (Int × OrderLevel)
  | .Bid => b.bids
  | .Ask => b.asks

/-- `OrderBook::levels_mut`, write-back of the chosen side. -/
def setLevels (b : OrderBook) : Side → List (Int × OrderLevel) → OrderBook
  | .Bid, ls => { b with bids := ls }
  | .Ask, ls => { b with asks := ls }

/-- First half of `OrderBook::add_order`: if `order_id` is already indexed,
look up its old side (bids first, then asks) and remove it from its old
location, dropping the old level if that empties it. -/
def removeExisting (b : OrderBook) (order_id : Nat) : OrderBook :=
  match findVal order_id b.order_index with
  | none => b
  | some old_price =>
    let old_side :=
      match (findVal old_price b.bids).bind fun lv => lv.get_order order_id with
      | some o => some o.side
      | none =>
        match (findVal old_price b.asks).bind fun lv => lv.get_order order_id with
        | some o => some o.side
        | none => none
    match old_side with
    | none => b
    | some s =>
      match findVal old_price (b.levels s) with
      | none => b
      | some lv =>
        let lv2 := (lv.remove_order order_id).2
        if lv2.is_empty then b.setLevels s (eraseKey old_price (b.levels s))
        else b.setLevels s (insertVal old_price lv2 (b.levels s))

/-- Second half of `OrderBook::add_order`: insert into the target side's
level at `o.price` (created if absent) and update the index. -/
def insertNew (b : OrderBook) (o : Order) : OrderBook :=
  let lv :=
    match findVal o.price (b.levels o.side) with
    | none => OrderLevel.new o.price
    | some lv => lv
  let b2 := b.setLevels o.side (insertVal o.price (lv.add_order o) (b.levels o.side))
  { b2 with order_index := insertVal o.order_id o.price b2.order_index }

/-- `OrderBook::add_order`. -/
def add_order (b : OrderBook) (o : Order) : OrderBook :=
  (b.removeExisting o.order_id).insertNew o

/-- `levels.get_mut(&price).and_then(|level| level.remove_order(order_id))`
on one side collection: the collection is unchanged when the level is absent
or does not contain the order; otherwise the shrunk level is left in place
(possibly empty, cleaned up separately). -/
def removeFromLevels (ls : List (Int × OrderLevel)) (price : Int) (order_id : Nat) :
    Option Order × List (Int × OrderLevel) :=
  match findVal price ls with
  | none => (none, ls)
  | some lv =>
    match lv.remove_order order_id with
    | (none, _) => (none, ls)
    | (some o, lv2) => (some o, insertVal price lv2 ls)

/-- The empty-level cleanup step of `OrderBook::remove_order`:
`if levels.get(&price).is_some_and(|l| l.is_empty()) { levels.remove(&price) }`. -/
def cleanupLevel (b : OrderBook) (s : Side) (price : Int) : OrderBook :=
  match findVal price (b.levels s) with
  | some lv => if lv.is_empty then b.setLevels s (eraseKey price (b.levels s)) else b
  | none => b

/-- `OrderBook::remove_order`: pop the index entry, try bids then asks,
then clean up an emptied level on the removed order's side. -/
def remove_order (b : OrderBook) (order_id : Nat) : Option Order × OrderBook :=
  match findVal order_id b.order_index with
  | none => (none, b)
  | some price =>
    let b1 : OrderBook := { b with order_index := eraseKey order_id b.order_index }
    match removeFromLevels b1.bids price order_id with
    | (some o, bids2) =>
      let b2 := { b1 with bids := bids2 }
      (some o, b2.cleanupLevel o.side price)
    | (none, _) =>
      match removeFromLevels b1.asks price order_id with
      | (some o, asks2) =>
        let b2 := { b1 with asks := asks2 }
        (some o, b2.cleanupLevel o.side price)
      | (none, _) => (none, b1)

/-- `OrderBook::get_order`. -/
def get_order (b : OrderBook) (order_id : Nat) : Option Order :=
  match findVal order_id b.order_index with
  | none => none
  | some price =>
    match (findVal price b.bids).bind fun lv => lv.get_order order_id with
    | some o => some o
    | none => (findVal price b.asks).bind fun lv => lv.get_order order_id

/-- One side of `OrderBook::modify_order`: `none` when this side does not
take the early `return`, i.e. the level is absent or lacks the order. -/
def modifyInLevels (ls : List (Int × OrderLevel)) (price : Int)
    (order_id new_size : Nat) :
    Option (Except OrderBookError (List (Int × OrderLevel))) :=
  match findVal price ls with
  | none => none
  | some lv =>
    if (lv.get_order order_id).isSome then
      some (match lv.modify_order order_id new_size with
            | .ok lv2 => .ok (insertVal price lv2 ls)
            | .error e => .error e)
    else none

/-- `OrderBook::modify_order`. -/
def modify_order (b : OrderBook) (order_id new_size : Nat) :
    Except OrderBookError OrderBook :=
  match findVal order_id b.order_index with
  | none => .error (.OrderNotFound order_id)
  | some price =>
    match modifyInLevels b.bids price order_id new_size with
    | some r => r.map fun bids2 => { b with bids := bids2 }
    | none =>
      match modifyInLevels b.asks price order_id new_size with
      | some r => r.map fun asks2 => { b with asks := asks2 }
      | none => .error (.OrderNotFound order_id)

/-- `OrderBook::fill_order`. -/
def fill_order (b : OrderBook) (order_id fill_quantity : Nat) :
    Except OrderBookError OrderBook :=
  match b.get_order order_id with
  | none => .error (.OrderNotFound order_id)
  | some o =>
    if o.size < fill_quantity then
      .error (.FillQuantityExceedsOrderSize fill_quantity o.size)
    else
      let new_size := o.size - fill_quantity
      if new_size = 0 then .ok (b.remove_order order_id).2
      else b.modify_order order_id new_size

/-- `OrderBook::best_bid`: last (highest) bid level. -/
def best_bid (b : OrderBook) : Option (Int × Nat) :=
  b.bids.getLast?.map fun p => (p.1, p.2.total_qty)

/-- `OrderBook::best_ask`: first (lowest) ask level. -/
def best_ask (b : OrderBook) : Option (Int × Nat) :=
  b.asks.head?.map fun p => (p.1, p.2.total_qty)

/-- `OrderBook::top_n_bids`: highest to lowest. -/
def top_n_bids (b : OrderBook) (n : Nat) : List (Int × Nat) :=
  (b.bids.reverse.take n).map fun p => (p.1, p.2.total_qty)

/-- `OrderBook::top_n_asks`: lowest to highest. -/
def top_n_asks (b : OrderBook) (n : Nat) : List (Int × Nat) :=
  (b.asks.take n).map fun p => (p.1, p.2.total_qty)

end OrderBook

/-! ### Market-by-price projection (`mbp.rs`) -/

/-- `struct OrderLevelSummary`. -/
structure OrderLevelSummary where
  price : Int
  total_quantity : Nat
  order_count : Nat
  deriving DecidableEq, Repr

/-- `impl From<&OrderLevel> for OrderLevelSummary`. -/
def OrderLevelSummary.ofLevel (lv : OrderLevel) : OrderLevelSummary :=
  { price := lv.price, total_quantity := lv.total_qty, order_count := lv.order_count }

/-- `struct MarketByPrice`. -/
structure MarketByPrice where
  bids : List (Int × OrderLevelSummary)
  asks : List (Int × OrderLevelSummary)
  deriving DecidableEq, Repr

/-- `impl From<&OrderBook> for MarketByPrice`. -/
def MarketByPrice.ofBook (b : OrderBook) : MarketByPrice :=
  { bids := b.bids.map fun p => (p.1, OrderLevelSummary.ofLevel p.2)
    asks := b.asks.map fun p => (p.1, OrderLevelSummary.ofLevel p.2) }

/-! ### Operation sequences and reachable books -/

/-- One public mutating operation of the book. -/
inductive Op where
  | add (o : Order)
  | remove (order_id : Nat)
  | modify (order_id new_size : Nat)
  | fill (order_id fill_quantity : Nat)
  deriving DecidableEq, Repr

/-- Apply one operation; a failing `modify` / `fill` leaves the book
unchanged, exactly as the Rust methods mutate nothing on an error path. -/
def applyOp (b : OrderBook) : Op → OrderBook
  | .add o => b.add_order o
  | .remove order_id => (b.remove_order order_id).2
  | .modify order_id new_size =>
    match b.modify_order order_id new_size with
    | .ok b2 => b2
    | .error _ => b
  | .fill order_id fill_quantity =>
    match b.fill_order order_id fill_quantity with
    | .ok b2 => b2
    | .error _ => b

/-- The book reached from the empty book by a finite operation sequence. -/
def runOps (ops : List Op) : OrderBook :=
  ops.foldl applyOp OrderBook.empty

/-! ### Invariants (specification layer) -/

/-- The opposite side; a specification helper. -/
def Side.other : Side → Side
  | .Bid => .Ask
  | .Ask => .Bid

/-- Well-formedness of a level stored under key `p` on side `s`: its price
field matches its key, its order map is sorted and non-empty, and every
stored order records its own key, the level's side and the level's price. -/
def OrderLevel.WF (lv : OrderLevel) (s : Side) (p : Int) : Prop :=
  lv.price = p ∧ SortedKeys lv.orders ∧ lv.orders ≠ [] ∧
    ∀ x ∈ lv.orders, x.2.order_id = x.1 ∧ x.2.side = s ∧ x.2.price = p

/-- The order-book representation invariant. -/
structure OrderBook.Inv (b : OrderBook) : Prop where
  sorted_levels : ∀ s, SortedKeys (b.levels s)
  sorted_index : SortedKeys b.order_index
  wf : ∀ s, ∀ x ∈ b.levels s, OrderLevel.WF x.2 s x.1
  complete : ∀ s, ∀ x ∈ b.levels s, ∀ y ∈ x.2.orders,
    findVal y.1 b.order_index = some x.1
  sound : ∀ j p, findVal j b.order_index = some p →
    ∃ s lv, findVal p (b.levels s) = some lv ∧ (findVal j lv.orders).isSome
  nodup : ∀ p lv lv', findVal p b.bids = some lv → findVal p b.asks = some lv' →
    ∀ j, (findVal j lv.orders).isSome → (findVal j lv'.orders).isSome → False

/-- Invariant of the intermediate book inside `add_order`, between removal
of a pre-existing order `id` and its reinsertion: the index may still hold
a dangling entry for `id`, but no level contains `id`. -/
structure OrderBook.InvX (b : OrderBook) (id : Nat) : Prop where
  sorted_levels : ∀ s, SortedKeys (b.levels s)
  sorted_index : SortedKeys b.order_index
  wf : ∀ s, ∀ x ∈ b.levels s, OrderLevel.WF x.2 s x.1
  complete : ∀ s, ∀ x ∈ b.levels s, ∀ y ∈ x.2.orders,
    findVal y.1 b.order_index = some x.1
  sound : ∀ j p, j ≠ id → findVal j b.order_index = some p →
    ∃ s lv, findVal p (b.levels s) = some lv ∧ (findVal j lv.orders).isSome
  nodup : ∀ p lv lv', findVal p b.bids = some lv → findVal p b.asks = some lv' →
    ∀ j, (findVal j lv.orders).isSome → (findVal j lv'.orders).isSome → False
  absent : ∀ s, ∀ x ∈ b.levels s, ∀ y ∈ x.2.orders, y.1 ≠ id

/-! ### Lemmas about the sorted-association-list layer -/

section SListLemmas

variable {α : Type} {β : Type} [LinearOrder α]

theorem findVal_insertVal (k j : α) (v : β) (l : List (α × β)) :
    findVal j (insertVal k v l) = if k = j then some v else findVal j l := by
  induction l with
  | nil => simp only [insertVal, findVal]
  | cons p t ih =>
    obtain ⟨k', v'⟩ := p
    rcases lt_trichotomy k k' with hlt | heq | hgt
    · rw [insertVal, if_pos hlt]
      simp only [findVal]
    · subst heq
      rw [insertVal, if_neg (lt_irrefl k), if_pos rfl]
      by_cases h : k = j <;> simp [findVal, h]
    · rw [insertVal, if_neg (lt_asymm hgt), if_neg (ne_of_gt hgt)]
      by_cases hj : k' = j
      · subst hj
        have hne : ¬ k = k' := ne_of_gt hgt
        simp [findVal, hne]
      · simp [findVal, hj, ih]

theorem findVal_insertVal_self (k : α) (v : β) (l : List (α × β)) :
    findVal k (insertVal k v l) = some v := by
  simp [findVal_insertVal]

theorem findVal_insertVal_ne (k j : α) (v : β) (l : List (α × β)) (h : k ≠ j) :
    findVal j (insertVal k v l) = findVal j l := by
  simp [findVal_insertVal, h]

theorem findVal_eraseKey_ne (k j : α) (l : List (α × β)) (h : k ≠ j) :
    findVal j (eraseKey k l) = findVal j l := by
  induction l with
  | nil => simp [eraseKey]
  | cons p t ih =>
    obtain ⟨k', v'⟩ := p
    by_cases hk : k' = k
    · subst hk
      rw [eraseKey, if_pos rfl, findVal, if_neg h]
    · rw [eraseKey, if_neg hk]
      by_cases hj : k' = j <;> simp [findVal, hj, ih]

theorem mem_of_findVal {k : α} {v : β} {l : List (α × β)}
    (h : findVal k l = some v) : (k, v) ∈ l := by
  induction l with
  | nil => simp [findVal] at h
  | cons p t ih =>
    obtain ⟨k', v'⟩ := p
    by_cases hk : k' = k
    · subst hk
      rw [findVal, if_pos rfl] at h
      obtain rfl : v' = v := Option.some.inj h
      exact List.mem_cons_self _ _
    · rw [findVal, if_neg hk] at h
      exact List.mem_cons_of_mem _ (ih h)

theorem findVal_eq_none_of_forall {k : α} {l : List (α × β)}
    (h : ∀ x ∈ l, x.1 ≠ k) : findVal k l = none := by
  induction l with
  | nil => rfl
  | cons p t ih =>
    obtain ⟨k', v'⟩ := p
    have hk : k' ≠ k := h (k', v') (List.mem_cons_self _ _)
    rw [findVal, if_neg hk]
    exact ih fun x hx => h x (List.mem_cons_of_mem _ hx)

theorem findVal_of_mem {k : α} {v : β} {l : List (α × β)}
    (hs : SortedKeys l) (h : (k, v) ∈ l) : findVal k l = some v := by
  induction l with
  | nil => simp at h
  | cons p t ih =>
    obtain ⟨k', v'⟩ := p
    rcases List.mem_cons.mp h with h | h
    · rw [Prod.mk.injEq] at h
      obtain ⟨rfl, rfl⟩ := h
      rw [findVal, if_pos rfl]
    · have hk : k' ≠ k := by
        intro he
        subst he
        exact absurd ((List.pairwise_cons.mp hs).1 (k', v) h) (lt_irrefl _)
      rw [findVal, if_neg hk]
      exact ih (List.pairwise_cons.mp hs).2 h

theorem mem_insertVal {k : α} {v : β} {l : List (α × β)} {x : α × β}
    (h : x ∈ insertVal k v l) : x = (k, v) ∨ x ∈ l := by
  induction l with
  | nil =>
    rw [insertVal] at h
    left
    simpa using h
  | cons p t ih =>
    obtain ⟨k', v'⟩ := p
    by_cases hlt : k < k'
    · rw [insertVal, if_pos hlt] at h
      rcases List.mem_cons.mp h with h | h
      · left; exact h
      · right; exact h
    · by_cases heq : k = k'
      · rw [insertVal, if_neg hlt, if_pos heq] at h
        rcases List.mem_cons.mp h with h | h
        · left; exact h
        · right; exact List.mem_cons_of_mem _ h
      · rw [insertVal, if_neg hlt, if_neg heq] at h
        rcases List.mem_cons.mp h with h | h
        · right
          rw [h]
          exact List.mem_cons_self _ _
        · rcases ih h with h | h
          · left; exact h
          · right; exact List.mem_cons_of_mem _ h

theorem eraseKey_sublist (k : α) (l : List (α × β)) : (eraseKey k l).Sublist l := by
  induction l with
  | nil => simp [eraseKey]
  | cons p t ih =>
    obtain ⟨k', v'⟩ := p
    by_cases hk : k' = k
    · rw [eraseKey, if_pos hk]
      exact List.sublist_cons_self _ _
    · rw [eraseKey, if_neg hk]
      exact List.Sublist.cons₂ _ ih

theorem mem_eraseKey {k : α} {l : List (α × β)} {x : α × β}
    (h : x ∈ eraseKey k l) : x ∈ l :=
  (eraseKey_sublist k l).mem h

theorem sorted_eraseKey {k : α} {l : List (α × β)}
    (hs : SortedKeys l) : SortedKeys (eraseKey k l) :=
  hs.sublist (eraseKey_sublist k l)

theorem sorted_insertVal {k : α} {v : β} {l : List (α × β)}
    (hs : SortedKeys l) : SortedKeys (insertVal k v l) := by
  induction l with
  | nil => simp [insertVal, SortedKeys]
  | cons p t ih =>
    obtain ⟨k', v'⟩ := p
    have hs' : SortedKeys t := (List.pairwise_cons.mp hs).2
    have hhead : ∀ x ∈ t, k' < x.1 := fun x hx => (List.pairwise_cons.mp hs).1 x hx
    by_cases hlt : k < k'
    · rw [insertVal, if_pos hlt]
      refine List.pairwise_cons.mpr ⟨?_, hs⟩
      intro x hx
      rcases List.mem_cons.mp hx with h | h
      · rw [h]; exact hlt
      · exact lt_trans hlt (hhead x h)
    · by_cases heq : k = k'
      · subst heq
        rw [insertVal, if_neg hlt, if_pos rfl]
        exact List.pairwise_cons.mpr ⟨fun x hx => hhead x hx, hs'⟩
      · rw [insertVal, if_neg hlt, if_neg heq]
        refine List.pairwise_cons.mpr ⟨?_, ih hs'⟩
        intro x hx
        rcases mem_insertVal hx with h | h
        · rw [h]
          exact lt_of_le_of_ne (not_lt.mp hlt) (Ne.symm heq)
        · exact hhead x h

theorem insertVal_self {k : α} {v : β} {l : List (α × β)}
    (hs : SortedKeys l) (h : findVal k l = some v) : insertVal k v l = l := by
  induction l with
  | nil => simp [findVal] at h
  | cons p t ih =>
    obtain ⟨k', v'⟩ := p
    have hs' : SortedKeys t := (List.pairwise_cons.mp hs).2
    by_cases hk : k' = k
    · subst hk
      rw [findVal, if_pos rfl] at h
      obtain rfl : v' = v := Option.some.inj h
      rw [insertVal, if_neg (lt_irrefl _), if_pos rfl]
    · rw [findVal, if_neg hk] at h
      have hmem : (k, v) ∈ t := mem_of_findVal h
      have hlt : k' < k := (List.pairwise_cons.mp hs).1 (k, v) hmem
      rw [insertVal, if_neg (lt_asymm hlt), if_neg (ne_of_gt hlt), ih hs' h]

theorem findVal_eraseKey_self {k : α} {l : List (α × β)}
    (hs : SortedKeys l) : findVal k (eraseKey k l) = none := by
  induction l with
  | nil => rfl
  | cons p t ih =>
    obtain ⟨k', v'⟩ := p
    have hs' : SortedKeys t := (List.pairwise_cons.mp hs).2
    by_cases hk : k' = k
    · subst hk
      rw [eraseKey, if_pos rfl]
      exact findVal_eq_none_of_forall fun x hx =>
        ne_of_gt ((List.pairwise_cons.mp hs).1 x hx)
    · rw [eraseKey, if_neg hk, findVal, if_neg hk]
      exact ih hs'

theorem eraseKey_eq_nil {k : α} {l : List (α × β)}
    (h : eraseKey k l = []) : ∀ x ∈ l, x.1 = k := by
  induction l with
  | nil => simp
  | cons p t ih =>
    obtain ⟨k', v'⟩ := p
    by_cases hk : k' = k
    · subst hk
      rw [eraseKey, if_pos rfl] at h
      subst h
      simp
    · rw [eraseKey, if_neg hk] at h
      exact absurd h (List.cons_ne_nil _ _)

theorem keys_insertVal_self {k : α} {v w : β} {l : List (α × β)}
    (hs : SortedKeys l) (h : findVal k l = some w) :
    (insertVal k v l).map Prod.fst = l.map Prod.fst := by
  induction l with
  | nil => simp [findVal] at h
  | cons p t ih =>
    obtain ⟨k', v'⟩ := p
    have hs' : SortedKeys t := (List.pairwise_cons.mp hs).2
    by_cases hk : k' = k
    · subst hk
      rw [insertVal, if_neg (lt_irrefl _), if_pos rfl]
      simp
    · rw [findVal, if_neg hk] at h
      have hmem : (k, w) ∈ t := mem_of_findVal h
      have hlt : k' < k := (List.pairwise_cons.mp hs).1 (k, w) hmem
      rw [insertVal, if_neg (lt_asymm hlt), if_neg (ne_of_gt hlt)]
      simp [ih hs' h]

theorem findVal_map {γ : Type} (f : β → γ) (k : α) (l : List (α × β)) :
    findVal k (l.map fun p => (p.1, f p.2)) = (findVal k l).map f := by
  induction l with
  | nil => rfl
  | cons p t ih =>
    obtain ⟨k', v'⟩ := p
    by_cases hk : k' = k <;> simp [findVal, hk, ih]

theorem not_mem_eraseKey_self {k : α} {l : List (α × β)} {x : α × β}
    (hs : SortedKeys l) (h : x ∈ eraseKey k l) : x.1 ≠ k := by
  intro he
  have h1 : findVal x.1 (eraseKey k l) = some x.2 :=
    findVal_of_mem (sorted_eraseKey hs) h
  rw [he, findVal_eraseKey_self hs] at h1
  exact Option.noConfusion h1

theorem mem_insertVal_strong {k : α} {v : β} {l : List (α × β)} {x : α × β}
    (hs : SortedKeys l) (h : x ∈ insertVal k v l) :
    x = (k, v) ∨ (x ∈ l ∧ x.1 ≠ k) := by
  induction l with
  | nil =>
    rw [insertVal] at h
    left
    simpa using h
  | cons p t ih =>
    obtain ⟨k', v'⟩ := p
    have hs' : SortedKeys t := (List.pairwise_cons.mp hs).2
    have hhead : ∀ x ∈ t, k' < x.1 := fun y hy => (List.pairwise_cons.mp hs).1 y hy
    by_cases hlt : k < k'
    · rw [insertVal, if_pos hlt] at h
      rcases List.mem_cons.mp h with h | h
      · left; exact h
      · right
        refine ⟨h, ?_⟩
        rcases List.mem_cons.mp h with h2 | h2
        · rw [h2]; exact ne_of_gt hlt
        · exact ne_of_gt (lt_trans hlt (hhead x h2))
    · by_cases heq : k = k'
      · subst heq
        rw [insertVal, if_neg hlt, if_pos rfl] at h
        rcases List.mem_cons.mp h with h | h
        · left; exact h
        · right
          exact ⟨List.mem_cons_of_mem _ h, ne_of_gt (hhead x h)⟩
      · rw [insertVal, if_neg hlt, if_neg heq] at h
        rcases List.mem_cons.mp h with h | h
        · right
          refine ⟨?_, ?_⟩
          · rw [h]; exact List.mem_cons_self _ _
          · rw [h]; exact Ne.symm heq
        · rcases ih hs' h with h | h
          · left; exact h
          · right; exact ⟨List.mem_cons_of_mem _ h.1, h.2⟩

theorem insertVal_ne_nil (k : α) (v : β) (l : List (α × β)) : insertVal k v l ≠ [] := by
  cases l with
  | nil => simp [insertVal]
  | cons p t =>
    obtain ⟨k', v'⟩ := p
    rw [insertVal]
    by_cases hlt : k < k'
    · simp [hlt]
    · by_cases heq : k = k' <;> simp [hlt, heq]

theorem eraseKey_of_none {k : α} {l : List (α × β)} (h : findVal k l = none) :
    eraseKey k l = l := by
  induction l with
  | nil => rfl
  | cons p t ih =>
    obtain ⟨k', v'⟩ := p
    by_cases hk : k' = k
    · rw [findVal, if_pos hk] at h
      exact absurd h (by simp)
    · rw [findVal, if_neg hk] at h
      rw [eraseKey, if_neg hk, ih h]

theorem eraseKey_insertVal {k : α} (v : β) {l : List (α × β)} (hs : SortedKeys l) :
    eraseKey k (insertVal k v l) = eraseKey k l := by
  induction l with
  | nil => simp [insertVal, eraseKey]
  | cons p t ih =>
    obtain ⟨k', v'⟩ := p
    have hs' : SortedKeys t := (List.pairwise_cons.mp hs).2
    have hhead : ∀ x ∈ t, k' < x.1 := fun y hy => (List.pairwise_cons.mp hs).1 y hy
    by_cases hlt : k < k'
    · rw [insertVal, if_pos hlt]
      have h1 : eraseKey k ((k, v) :: (k', v') :: t) = (k', v') :: t := by
        rw [eraseKey, if_pos rfl]
      rw [h1, eraseKey, if_neg (ne_of_gt hlt),
        eraseKey_of_none (findVal_eq_none_of_forall fun x hx =>
          ne_of_gt (lt_trans hlt (hhead x hx)))]
    · by_cases heq : k = k'
      · subst heq
        rw [insertVal, if_neg hlt, if_pos rfl, eraseKey, if_pos rfl, eraseKey, if_pos rfl]
      · have hgt : k' < k := lt_of_le_of_ne (not_lt.mp hlt) (Ne.symm heq)
        rw [insertVal, if_neg hlt, if_neg heq, eraseKey, if_neg (ne_of_lt hgt),
          eraseKey, if_neg (ne_of_lt hgt), ih hs']

end SListLemmas

/-! ### Basic lemmas about sides, levels and lookups -/

theorem Side.other_other (s : Side) : s.other.other = s := by
  cases s <;> rfl

theorem Side.other_ne (s : Side) : s.other ≠ s := by
  cases s <;> simp [Side.other]

theorem Side.eq_other_of_ne {s s' : Side} (h : s ≠ s') : s' = s.other := by
  cases s <;> cases s' <;> first | rfl | exact absurd rfl h

theorem OrderBook.levels_Bid (b : OrderBook) : b.levels .Bid = b.bids := rfl

theorem OrderBook.levels_Ask (b : OrderBook) : b.levels .Ask = b.asks := rfl

theorem OrderBook.levels_setLevels_same (b : OrderBook) (s : Side)
    (ls : List (Int × OrderLevel)) : (b.setLevels s ls).levels s = ls := by
  cases s <;> rfl

theorem OrderBook.levels_setLevels_other (b : OrderBook) {s s' : Side}
    (ls : List (Int × OrderLevel)) (h : s' ≠ s) :
    (b.setLevels s ls).levels s' = b.levels s' := by
  cases s <;> cases s' <;> first | rfl | exact absurd rfl h

theorem OrderBook.order_index_setLevels (b : OrderBook) (s : Side)
    (ls : List (Int × OrderLevel)) :
    (b.setLevels s ls).order_index = b.order_index := by
  cases s <;> rfl

theorem OrderBook.Inv.nodup_side {b : OrderBook} (hInv : b.Inv) {s : Side} {p : Int}
    {lv lv' : OrderLevel} (h1 : findVal p (b.levels s) = some lv)
    (h2 : findVal p (b.levels s.other) = some lv') {j : Nat}
    (hj1 : (findVal j lv.orders).isSome) (hj2 : (findVal j lv'.orders).isSome) :
    False := by
  cases s
  · exact hInv.nodup p lv lv' h1 h2 j hj1 hj2
  · exact hInv.nodup p lv' lv h2 h1 j hj2 hj1

theorem OrderBook.Inv.unique_loc {b : OrderBook} (hInv : b.Inv) {s s' : Side}
    {p p' : Int} {lv lv' : OrderLevel} {j : Nat} {o o' : Order}
    (h1 : findVal p (b.levels s) = some lv) (ho : findVal j lv.orders = some o)
    (h2 : findVal p' (b.levels s') = some lv') (ho' : findVal j lv'.orders = some o') :
    s = s' ∧ p = p' ∧ o = o' := by
  have hi1 : findVal j b.order_index = some p :=
    hInv.complete s (p, lv) (mem_of_findVal h1) (j, o) (mem_of_findVal ho)
  have hi2 : findVal j b.order_index = some p' :=
    hInv.complete s' (p', lv') (mem_of_findVal h2) (j, o') (mem_of_findVal ho')
  have hpp : p = p' := Option.some.inj (hi1.symm.trans hi2)
  subst hpp
  by_cases hss : s = s'
  · subst hss
    have hlv : lv = lv' := Option.some.inj (h1.symm.trans h2)
    subst hlv
    exact ⟨rfl, rfl, Option.some.inj (ho.symm.trans ho')⟩
  · have h2o : s' = s.other := Side.eq_other_of_ne hss
    rw [h2o] at h2
    exact absurd
      (hInv.nodup_side h1 h2 (Option.isSome_iff_exists.mpr ⟨o, ho⟩)
        (Option.isSome_iff_exists.mpr ⟨o', ho'⟩)) (fun f => f)

theorem OrderBook.get_order_none {b : OrderBook} {j : Nat}
    (h : findVal j b.order_index = none) : b.get_order j = none := by
  simp [OrderBook.get_order, h]

theorem OrderBook.Inv.get_order_of_mem {b : OrderBook} (hInv : b.Inv) {s : Side}
    {p : Int} {lv : OrderLevel} {j : Nat} {o : Order}
    (hlv : findVal p (b.levels s) = some lv) (ho : findVal j lv.orders = some o) :
    b.get_order j = some o := by
  have hidx : findVal j b.order_index = some p :=
    hInv.complete s (p, lv) (mem_of_findVal hlv) (j, o) (mem_of_findVal ho)
  cases s
  · rw [OrderBook.levels_Bid] at hlv
    simp [OrderBook.get_order, hidx, hlv, OrderLevel.get_order, ho]
  · rw [OrderBook.levels_Ask] at hlv
    cases hb : findVal p b.bids with
    | none => simp [OrderBook.get_order, hidx, hb, hlv, OrderLevel.get_order, ho]
    | some lv' =>
      cases hgb : findVal j lv'.orders with
      | none =>
        simp [OrderBook.get_order, hidx, hb, hlv, OrderLevel.get_order, hgb, ho]
      | some o' =>
        exact absurd
          (hInv.nodup p lv' lv hb hlv j (by simp [hgb]) (by simp [ho])) (fun f => f)

theorem OrderBook.Inv.get_order_some {b : OrderBook} (hInv : b.Inv) {j : Nat}
    {o : Order} (h : b.get_order j = some o) :
    o.order_id = j ∧ findVal j b.order_index = some o.price ∧
      ∃ lv, findVal o.price (b.levels o.side) = some lv ∧
        findVal j lv.orders = some o := by
  cases hidx : findVal j b.order_index with
  | none =>
    rw [OrderBook.get_order_none hidx] at h
    exact absurd h (by simp)
  | some p =>
    have hloc : ∃ s lv, findVal p (b.levels s) = some lv ∧
        findVal j lv.orders = some o := by
      cases hb : findVal p b.bids with
      | none =>
        cases ha : findVal p b.asks with
        | none =>
          have hg : b.get_order j = none := by
            simp [OrderBook.get_order, hidx, hb, ha]
          rw [hg] at h
          exact absurd h (by simp)
        | some lv =>
          have hg : b.get_order j = lv.get_order j := by
            simp [OrderBook.get_order, hidx, hb, ha]
          rw [hg] at h
          exact ⟨.Ask, lv, ha, h⟩
      | some lv =>
        cases hgb : findVal j lv.orders with
        | some o' =>
          have hg : b.get_order j = some o' := by
            simp [OrderBook.get_order, hidx, hb, OrderLevel.get_order, hgb]
          rw [hg] at h
          obtain rfl : o' = o := Option.some.inj h
          exact ⟨.Bid, lv, hb, hgb⟩
        | none =>
          cases ha : findVal p b.asks with
          | none =>
            have hg : b.get_order j = none := by
              simp [OrderBook.get_order, hidx, hb, OrderLevel.get_order, hgb, ha]
            rw [hg] at h
            exact absurd h (by simp)
          | some lv' =>
            have hg : b.get_order j = lv'.get_order j := by
              simp [OrderBook.get_order, hidx, hb, OrderLevel.get_order, hgb, ha]
            rw [hg] at h
            exact ⟨.Ask, lv', ha, h⟩
    obtain ⟨s, lv, hlv, ho⟩ := hloc
    have hw := (hInv.wf s (p, lv) (mem_of_findVal hlv)).2.2.2 (j, o) (mem_of_findVal ho)
    obtain ⟨hid, hside, hprice⟩ := hw
    refine ⟨hid, ?_, lv, ?_, ho⟩
    · rw [hprice]
    · show findVal o.price (b.levels o.side) = some lv
      rw [hside, hprice]
      exact hlv

theorem OrderBook.Inv.get_order_none_iff {b : OrderBook} (hInv : b.Inv) (j : Nat) :
    b.get_order j = none ↔ findVal j b.order_index = none := by
  constructor
  · intro h
    cases hidx : findVal j b.order_index with
    | none => rfl
    | some p =>
      obtain ⟨s, lv, hlv, hj⟩ := hInv.sound j p hidx
      obtain ⟨o, ho⟩ := Option.isSome_iff_exists.mp hj
      rw [hInv.get_order_of_mem hlv ho] at h
      exact absurd h (by simp)
  · exact OrderBook.get_order_none

/-! ### Invariant preservation -/

theorem OrderBook.levels_set_index (b : OrderBook) (ix : List (Nat × Int)) (s : Side) :
    ({ b with order_index := ix } : OrderBook).levels s = b.levels s := by
  cases s <;> rfl

theorem OrderBook.inv_empty : OrderBook.empty.Inv := by
  refine ⟨?_, ?_, ?_, ?_, ?_, ?_⟩
  · intro s; cases s <;> exact List.Pairwise.nil
  · exact List.Pairwise.nil
  · intro s x hx; cases s <;> simp [OrderBook.empty, OrderBook.levels] at hx
  · intro s x hx; cases s <;> simp [OrderBook.empty, OrderBook.levels] at hx
  · intro j p hj
    simp [OrderBook.empty, findVal] at hj
  · intro p lv lv' h1 h2
    simp [OrderBook.empty, findVal] at h1

theorem OrderBook.invX_of_absent {b : OrderBook} {id : Nat} (hInv : b.Inv)
    (h : findVal id b.order_index = none) : b.InvX id := by
  refine ⟨hInv.sorted_levels, hInv.sorted_index, hInv.wf, hInv.complete, ?_,
    hInv.nodup, ?_⟩
  · intro j p hne hj
    exact hInv.sound j p hj
  · intro s x hx y hy hyid
    have h2 := hInv.complete s x hx y hy
    rw [hyid, h] at h2
    exact Option.noConfusion h2

theorem OrderBook.inv_of_invX_erase_index {b : OrderBook} {id : Nat}
    (hX : b.InvX id) :
    ({ b with order_index := eraseKey id b.order_index } : OrderBook).Inv := by
  refine ⟨?_, ?_, ?_, ?_, ?_, ?_⟩
  · intro s
    rw [OrderBook.levels_set_index]
    exact hX.sorted_levels s
  · exact sorted_eraseKey hX.sorted_index
  · intro s x hx
    rw [OrderBook.levels_set_index] at hx
    exact hX.wf s x hx
  · intro s x hx y hy
    rw [OrderBook.levels_set_index] at hx
    have h2 : findVal y.1 b.order_index = some x.1 := hX.complete s x hx y hy
    have h3 : findVal y.1 (eraseKey id b.order_index) = findVal y.1 b.order_index :=
      findVal_eraseKey_ne id y.1 _ (fun he => hX.absent s x hx y hy he.symm)
    exact h3.trans h2
  · intro j p hj
    have hj' : findVal j ({ b with order_index := eraseKey id b.order_index } :
        OrderBook).order_index = some p := hj
    have hne : j ≠ id := by
      intro he
      subst he
      have : findVal j (eraseKey j b.order_index) = none :=
        findVal_eraseKey_self hX.sorted_index
      rw [show ({ b with order_index := eraseKey j b.order_index } :
        OrderBook).order_index = eraseKey j b.order_index from rfl] at hj'
      rw [this] at hj'
      exact Option.noConfusion hj'
    have hj2 : findVal j b.order_index = some p := by
      have h4 : findVal j (eraseKey id b.order_index) = findVal j b.order_index :=
        findVal_eraseKey_ne id j _ (fun he => hne he.symm)
      exact h4.symm.trans hj
    obtain ⟨s0, lv0, h1, h2⟩ := hX.sound j p hne hj2
    refine ⟨s0, lv0, ?_, h2⟩
    rw [OrderBook.levels_set_index]
    exact h1
  · intro p lv1 lv2 h1 h2 j hj1 hj2
    exact hX.nodup p lv1 lv2 h1 h2 j hj1 hj2

theorem OrderBook.invX_eraseLevel {b : OrderBook} (hInv : b.Inv) {s : Side}
    {price : Int} {lv : OrderLevel} {id : Nat} {o : Order}
    (hlv : findVal price (b.levels s) = some lv)
    (ho : findVal id lv.orders = some o) :
    (b.setLevels s
      (if (eraseKey id lv.orders).isEmpty then eraseKey price (b.levels s)
       else insertVal price { lv with orders := eraseKey id lv.orders }
         (b.levels s))).InvX id := by
  have hsort : SortedKeys (b.levels s) := hInv.sorted_levels s
  have hwf0 : lv.WF s price := hInv.wf s (price, lv) (mem_of_findVal hlv)
  have hOrdSort : SortedKeys lv.orders := hwf0.2.1
  have hidx : findVal id b.order_index = some price :=
    hInv.complete s (price, lv) (mem_of_findVal hlv) (id, o) (mem_of_findVal ho)
  have huniq : ∀ s' : Side, ∀ x ∈ b.levels s', ∀ y ∈ x.2.orders, y.1 = id →
      s' = s ∧ x.1 = price ∧ x.2 = lv := by
    intro s' x hx y hy hyid
    have hidx' : findVal y.1 b.order_index = some x.1 := hInv.complete s' x hx y hy
    rw [hyid, hidx] at hidx'
    have hxp : x.1 = price := (Option.some.inj hidx').symm
    by_cases hss : s' = s
    · subst hss
      have hfx : findVal x.1 (b.levels s') = some x.2 :=
        findVal_of_mem (hInv.sorted_levels s') hx
      rw [hxp] at hfx
      exact ⟨rfl, hxp, Option.some.inj (hfx.symm.trans hlv)⟩
    · exfalso
      have hso : s' = s.other := Side.eq_other_of_ne fun he => hss he.symm
      subst hso
      have hfx : findVal price (b.levels s.other) = some x.2 := by
        have h1 := findVal_of_mem (hInv.sorted_levels s.other) hx
        rw [hxp] at h1
        exact h1
      have hy2 : (findVal id x.2.orders).isSome := by
        have h2 := findVal_of_mem (hInv.wf s.other x hx).2.1 hy
        rw [hyid] at h2
        exact Option.isSome_iff_exists.mpr ⟨y.2, h2⟩
      exact hInv.nodup_side hlv hfx (Option.isSome_iff_exists.mpr ⟨o, ho⟩) hy2
  by_cases hE : (eraseKey id lv.orders).isEmpty = true
  · rw [if_pos hE]
    have hnil : eraseKey id lv.orders = [] := List.isEmpty_iff.mp hE
    refine ⟨?_, ?_, ?_, ?_, ?_, ?_, ?_⟩
    · intro s''
      by_cases hs : s'' = s
      · subst hs
        rw [OrderBook.levels_setLevels_same]
        exact sorted_eraseKey hsort
      · rw [OrderBook.levels_setLevels_other _ _ hs]
        exact hInv.sorted_levels s''
    · rw [OrderBook.order_index_setLevels]
      exact hInv.sorted_index
    · intro s'' x hx
      by_cases hs : s'' = s
      · subst hs
        rw [OrderBook.levels_setLevels_same] at hx
        exact hInv.wf _ x (mem_eraseKey hx)
      · rw [OrderBook.levels_setLevels_other _ _ hs] at hx
        exact hInv.wf _ x hx
    · intro s'' x hx y hy
      rw [OrderBook.order_index_setLevels]
      by_cases hs : s'' = s
      · subst hs
        rw [OrderBook.levels_setLevels_same] at hx
        exact hInv.complete _ x (mem_eraseKey hx) y hy
      · rw [OrderBook.levels_setLevels_other _ _ hs] at hx
        exact hInv.complete _ x hx y hy
    · intro j p hj hfj
      rw [OrderBook.order_index_setLevels] at hfj
      obtain ⟨s0, lv0, hlv0, hj0⟩ := hInv.sound j p hfj
      by_cases hs : s0 = s
      · subst hs
        by_cases hp : p = price
        · subst hp
          exfalso
          have hlveq : lv0 = lv := Option.some.inj (hlv0.symm.trans hlv)
          subst hlveq
          obtain ⟨oj, hoj⟩ := Option.isSome_iff_exists.mp hj0
          exact hj (eraseKey_eq_nil hnil _ (mem_of_findVal hoj))
        · refine ⟨s0, lv0, ?_, hj0⟩
          rw [OrderBook.levels_setLevels_same,
            findVal_eraseKey_ne price p _ (fun he => hp he.symm)]
          exact hlv0
      · refine ⟨s0, lv0, ?_, hj0⟩
        rw [OrderBook.levels_setLevels_other _ _ hs]
        exact hlv0
    · intro p lv1 lv2 h1 h2 j hj1 hj2
      cases s with
      | Bid =>
        have h1' : findVal p (eraseKey price (b.levels Side.Bid)) = some lv1 := h1
        have h2' : findVal p (b.levels Side.Ask) = some lv2 := h2
        by_cases hp : p = price
        · subst hp
          rw [findVal_eraseKey_self (hInv.sorted_levels Side.Bid)] at h1'
          exact Option.noConfusion h1'
        · rw [findVal_eraseKey_ne price p _ (fun he => hp he.symm)] at h1'
          exact hInv.nodup p lv1 lv2 h1' h2' j hj1 hj2
      | Ask =>
        have h1' : findVal p (b.levels Side.Bid) = some lv1 := h1
        have h2' : findVal p (eraseKey price (b.levels Side.Ask)) = some lv2 := h2
        by_cases hp : p = price
        · subst hp
          rw [findVal_eraseKey_self (hInv.sorted_levels Side.Ask)] at h2'
          exact Option.noConfusion h2'
        · rw [findVal_eraseKey_ne price p _ (fun he => hp he.symm)] at h2'
          exact hInv.nodup p lv1 lv2 h1' h2' j hj1 hj2
    · intro s'' x hx y hy hyid
      by_cases hs : s'' = s
      · subst hs
        rw [OrderBook.levels_setLevels_same] at hx
        exact not_mem_eraseKey_self hsort hx
          (huniq _ x (mem_eraseKey hx) y hy hyid).2.1
      · rw [OrderBook.levels_setLevels_other _ _ hs] at hx
        exact hs (huniq s'' x hx y hy hyid).1
  · rw [if_neg hE]
    have hnnil : eraseKey id lv.orders ≠ [] := by
      intro hn
      exact hE (by rw [hn]; rfl)
    refine ⟨?_, ?_, ?_, ?_, ?_, ?_, ?_⟩
    · intro s''
      by_cases hs : s'' = s
      · subst hs
        rw [OrderBook.levels_setLevels_same]
        exact sorted_insertVal hsort
      · rw [OrderBook.levels_setLevels_other _ _ hs]
        exact hInv.sorted_levels s''
    · rw [OrderBook.order_index_setLevels]
      exact hInv.sorted_index
    · intro s'' x hx
      by_cases hs : s'' = s
      · subst hs
        rw [OrderBook.levels_setLevels_same] at hx
        rcases mem_insertVal_strong hsort hx with hx1 | hx2
        · subst hx1
          refine ⟨hwf0.1, sorted_eraseKey hOrdSort, hnnil, ?_⟩
          intro y hy
          exact hwf0.2.2.2 y (mem_eraseKey hy)
        · exact hInv.wf _ x hx2.1
      · rw [OrderBook.levels_setLevels_other _ _ hs] at hx
        exact hInv.wf _ x hx
    · intro s'' x hx y hy
      rw [OrderBook.order_index_setLevels]
      by_cases hs : s'' = s
      · subst hs
        rw [OrderBook.levels_setLevels_same] at hx
        rcases mem_insertVal_strong hsort hx with hx1 | hx2
        · subst hx1
          exact hInv.complete _ (price, lv) (mem_of_findVal hlv) y (mem_eraseKey hy)
        · exact hInv.complete _ x hx2.1 y hy
      · rw [OrderBook.levels_setLevels_other _ _ hs] at hx
        exact hInv.complete _ x hx y hy
    · intro j p hj hfj
      rw [OrderBook.order_index_setLevels] at hfj
      obtain ⟨s0, lv0, hlv0, hj0⟩ := hInv.sound j p hfj
      by_cases hs : s0 = s
      · subst hs
        by_cases hp : p = price
        · subst hp
          have hlveq : lv0 = lv := Option.some.inj (hlv0.symm.trans hlv)
          subst hlveq
          refine ⟨s0, { lv0 with orders := eraseKey id lv0.orders }, ?_, ?_⟩
          · rw [OrderBook.levels_setLevels_same, findVal_insertVal_self]
          · obtain ⟨oj, hoj⟩ := Option.isSome_iff_exists.mp hj0
            have : findVal j (eraseKey id lv0.orders) = some oj := by
              rw [findVal_eraseKey_ne id j _ (fun he => hj he.symm)]
              exact hoj
            exact Option.isSome_iff_exists.mpr ⟨oj, this⟩
        · refine ⟨s0, lv0, ?_, hj0⟩
          rw [OrderBook.levels_setLevels_same,
            findVal_insertVal_ne price p _ _ (fun he => hp he.symm)]
          exact hlv0
      · refine ⟨s0, lv0, ?_, hj0⟩
        rw [OrderBook.levels_setLevels_other _ _ hs]
        exact hlv0
    · intro p lv1 lv2 h1 h2 j hj1 hj2
      cases s with
      | Bid =>
        have h1' : findVal p (insertVal price
            { lv with orders := eraseKey id lv.orders } (b.levels Side.Bid))
            = some lv1 := h1
        have h2' : findVal p (b.levels Side.Ask) = some lv2 := h2
        rw [findVal_insertVal] at h1'
        by_cases hp : price = p
        · rw [if_pos hp] at h1'
          obtain rfl :
              ({ lv with orders := eraseKey id lv.orders } : OrderLevel) = lv1 :=
            Option.some.inj h1'
          subst hp
          obtain ⟨oj, hoj⟩ := Option.isSome_iff_exists.mp hj1
          have hmem : (j, oj) ∈ lv.orders := mem_eraseKey (mem_of_findVal hoj)
          have hjlv : (findVal j lv.orders).isSome :=
            Option.isSome_iff_exists.mpr ⟨oj, findVal_of_mem hOrdSort hmem⟩
          exact hInv.nodup price lv lv2 hlv h2' j hjlv hj2
        · rw [if_neg hp] at h1'
          exact hInv.nodup p lv1 lv2 h1' h2' j hj1 hj2
      | Ask =>
        have h1' : findVal p (b.levels Side.Bid) = some lv1 := h1
        have h2' : findVal p (insertVal price
            { lv with orders := eraseKey id lv.orders } (b.levels Side.Ask))
            = some lv2 := h2
        rw [findVal_insertVal] at h2'
        by_cases hp : price = p
        · rw [if_pos hp] at h2'
          obtain rfl :
              ({ lv with orders := eraseKey id lv.orders } : OrderLevel) = lv2 :=
            Option.some.inj h2'
          subst hp
          obtain ⟨oj, hoj⟩ := Option.isSome_iff_exists.mp hj2
          have hmem : (j, oj) ∈ lv.orders := mem_eraseKey (mem_of_findVal hoj)
          have hjlv : (findVal j lv.orders).isSome :=
            Option.isSome_iff_exists.mpr ⟨oj, findVal_of_mem hOrdSort hmem⟩
          exact hInv.nodup price lv1 lv h1' hlv j hj1 hjlv
        · rw [if_neg hp] at h2'
          exact hInv.nodup p lv1 lv2 h1' h2' j hj1 hj2
    · intro s'' x hx y hy hyid
      by_cases hs : s'' = s
      · subst hs
        rw [OrderBook.levels_setLevels_same] at hx
        rcases mem_insertVal_strong hsort hx with hx1 | hx2
        · subst hx1
          exact not_mem_eraseKey_self hOrdSort hy hyid
        · exact hx2.2 (huniq _ x hx2.1 y hy hyid).2.1
      · rw [OrderBook.levels_setLevels_other _ _ hs] at hx
        exact hs (huniq s'' x hx y hy hyid).1

theorem OrderBook.removeExisting_absent {b : OrderBook} {id : Nat}
    (h : findVal id b.order_index = none) : b.removeExisting id = b := by
  simp [OrderBook.removeExisting, h]

theorem OrderBook.removeExisting_eq {b : OrderBook} {id : Nat} {o : Order}
    (hInv : b.Inv) (hget : b.get_order id = some o) :
    ∃ lv, findVal o.price (b.levels o.side) = some lv ∧
      findVal id lv.orders = some o ∧
      b.removeExisting id =
        b.setLevels o.side
          (if (eraseKey id lv.orders).isEmpty then
            eraseKey o.price (b.levels o.side)
          else insertVal o.price { lv with orders := eraseKey id lv.orders }
            (b.levels o.side)) := by
  obtain ⟨hoid, hidx, lv, hlv, ho⟩ := hInv.get_order_some hget
  refine ⟨lv, hlv, ho, ?_⟩
  revert hlv
  cases hside : o.side with
  | Bid =>
    intro hlv
    have hb : findVal o.price b.bids = some lv := hlv
    simp [OrderBook.removeExisting, OrderBook.levels, hidx, hb,
      OrderLevel.get_order, ho, hside, OrderLevel.remove_order, OrderLevel.is_empty]
    by_cases hc : eraseKey id lv.orders = [] <;> simp [hc]
  | Ask =>
    intro hlv
    have ha : findVal o.price b.asks = some lv := hlv
    cases hbb : findVal o.price b.bids with
    | none =>
      simp [OrderBook.removeExisting, OrderBook.levels, hidx, hbb, ha,
        OrderLevel.get_order, ho, hside, OrderLevel.remove_order,
        OrderLevel.is_empty]
      by_cases hc : eraseKey id lv.orders = [] <;> simp [hc]
    | some lv' =>
      have hg' : findVal id lv'.orders = none := by
        cases hgg : findVal id lv'.orders with
        | none => rfl
        | some o' =>
          exact absurd
            (hInv.nodup o.price lv' lv hbb ha id
              (Option.isSome_iff_exists.mpr ⟨o', hgg⟩)
              (Option.isSome_iff_exists.mpr ⟨o, ho⟩)) (fun f => f)
      simp [OrderBook.removeExisting, OrderBook.levels, hidx, hbb, ha, hg',
        OrderLevel.get_order, ho, hside, OrderLevel.remove_order,
        OrderLevel.is_empty]
      by_cases hc : eraseKey id lv.orders = [] <;> simp [hc]

theorem OrderBook.invX_removeExisting {b : OrderBook} (hInv : b.Inv) (id : Nat) :
    (b.removeExisting id).InvX id := by
  cases hget : b.get_order id with
  | none =>
    have hidx : findVal id b.order_index = none :=
      (hInv.get_order_none_iff id).mp hget
    rw [OrderBook.removeExisting_absent hidx]
    exact OrderBook.invX_of_absent hInv hidx
  | some o =>
    obtain ⟨lv, hlv, ho, heq⟩ := OrderBook.removeExisting_eq hInv hget
    rw [heq]
    exact OrderBook.invX_eraseLevel hInv hlv ho

theorem OrderBook.insertNew_eq (b : OrderBook) (o : Order) (lv0 : OrderLevel)
    (h : (match findVal o.price (b.levels o.side) with
          | none => OrderLevel.new o.price
          | some lv => lv) = lv0) :
    ∀ b2, b2 = b.setLevels o.side (insertVal o.price (lv0.add_order o)
        (b.levels o.side)) →
      b.insertNew o =
        { b2 with order_index := insertVal o.order_id o.price b.order_index } := by
  intro b2 hb2
  subst hb2
  simp only [OrderBook.insertNew, h, OrderBook.order_index_setLevels]

theorem OrderBook.inv_insertNew {b : OrderBook} {o : Order}
    (hX : b.InvX o.order_id) : (b.insertNew o).Inv := by
  obtain ⟨lv0, hl0, hprice0, hsort0, hmem0, habs0, hcomp0, hfind⟩ :
      ∃ lv0, (match findVal o.price (b.levels o.side) with
              | none => OrderLevel.new o.price
              | some lv => lv) = lv0 ∧
        lv0.price = o.price ∧ SortedKeys lv0.orders ∧
        (∀ y ∈ lv0.orders, y.2.order_id = y.1 ∧ y.2.side = o.side ∧
          y.2.price = o.price) ∧
        (∀ y ∈ lv0.orders, y.1 ≠ o.order_id) ∧
        (∀ y ∈ lv0.orders, findVal y.1 b.order_index = some o.price) ∧
        ((findVal o.price (b.levels o.side) = none ∧ lv0.orders = []) ∨
          findVal o.price (b.levels o.side) = some lv0) := by
    cases hfl : findVal o.price (b.levels o.side) with
    | none =>
      refine ⟨OrderLevel.new o.price, rfl, rfl, List.Pairwise.nil,
        ?_, ?_, ?_, Or.inl ⟨rfl, rfl⟩⟩ <;>
        (intro y hy; simp [OrderLevel.new] at hy)
    | some lv =>
      have hmem := mem_of_findVal hfl
      have hwf := hX.wf o.side (o.price, lv) hmem
      exact ⟨lv, rfl, hwf.1, hwf.2.1, hwf.2.2.2,
        fun y hy => hX.absent o.side (o.price, lv) hmem y hy,
        fun y hy => hX.complete o.side (o.price, lv) hmem y hy, Or.inr rfl⟩
  rw [OrderBook.insertNew_eq b o lv0 hl0 _ rfl]
  refine ⟨?_, ?_, ?_, ?_, ?_, ?_⟩
  · intro s''
    rw [OrderBook.levels_set_index]
    by_cases hs : s'' = o.side
    · subst hs
      rw [OrderBook.levels_setLevels_same]
      exact sorted_insertVal (hX.sorted_levels o.side)
    · rw [OrderBook.levels_setLevels_other _ _ hs]
      exact hX.sorted_levels s''
  · exact sorted_insertVal hX.sorted_index
  · intro s'' x hx
    rw [OrderBook.levels_set_index] at hx
    by_cases hs : s'' = o.side
    · subst hs
      rw [OrderBook.levels_setLevels_same] at hx
      rcases mem_insertVal_strong (hX.sorted_levels _) hx with hx1 | hx2
      · subst hx1
        refine ⟨hprice0, sorted_insertVal hsort0, insertVal_ne_nil _ _ _, ?_⟩
        intro y hy
        have hy' : y ∈ insertVal o.order_id o lv0.orders := hy
        rcases mem_insertVal hy' with hy1 | hy2
        · subst hy1
          exact ⟨rfl, rfl, rfl⟩
        · exact hmem0 y hy2
      · exact hX.wf _ x hx2.1
    · rw [OrderBook.levels_setLevels_other _ _ hs] at hx
      exact hX.wf _ x hx
  · intro s'' x hx y hy
    rw [OrderBook.levels_set_index] at hx
    show findVal y.1 (insertVal o.order_id o.price b.order_index) = some x.1
    by_cases hs : s'' = o.side
    · subst hs
      rw [OrderBook.levels_setLevels_same] at hx
      rcases mem_insertVal_strong (hX.sorted_levels _) hx with hx1 | hx2
      · subst hx1
        have hy' : y ∈ insertVal o.order_id o lv0.orders := hy
        rcases mem_insertVal hy' with hy1 | hy2
        · subst hy1
          exact findVal_insertVal_self _ _ _
        · rw [findVal_insertVal_ne _ _ _ _ (fun he => habs0 y hy2 he.symm)]
          exact hcomp0 y hy2
      · have hne : y.1 ≠ o.order_id := hX.absent _ x hx2.1 y hy
        rw [findVal_insertVal_ne _ _ _ _ (fun he => hne he.symm)]
        exact hX.complete _ x hx2.1 y hy
    · rw [OrderBook.levels_setLevels_other _ _ hs] at hx
      have hne : y.1 ≠ o.order_id := hX.absent _ x hx y hy
      rw [findVal_insertVal_ne _ _ _ _ (fun he => hne he.symm)]
      exact hX.complete _ x hx y hy
  · intro j p hj
    have hj' : findVal j (insertVal o.order_id o.price b.order_index) = some p := hj
    rw [findVal_insertVal] at hj'
    by_cases hid : o.order_id = j
    · rw [if_pos hid] at hj'
      obtain rfl : o.price = p := Option.some.inj hj'
      subst hid
      refine ⟨o.side, lv0.add_order o, ?_, ?_⟩
      · rw [OrderBook.levels_set_index, OrderBook.levels_setLevels_same]
        exact findVal_insertVal_self _ _ _
      · have h5 : findVal o.order_id (insertVal o.order_id o lv0.orders) = some o :=
          findVal_insertVal_self _ _ _
        exact Option.isSome_iff_exists.mpr ⟨o, h5⟩
    · rw [if_neg hid] at hj'
      obtain ⟨s0, lv', hlv', hj0⟩ := hX.sound j p (fun he => hid he.symm) hj'
      by_cases hs : s0 = o.side
      · subst hs
        by_cases hp : p = o.price
        · subst hp
          rcases hfind with ⟨hfnone, _⟩ | hfsome
          · rw [hfnone] at hlv'
            exact absurd hlv' (by simp)
          · obtain rfl : lv' = lv0 := Option.some.inj (hlv'.symm.trans hfsome)
            refine ⟨o.side, lv'.add_order o, ?_, ?_⟩
            · rw [OrderBook.levels_set_index, OrderBook.levels_setLevels_same]
              exact findVal_insertVal_self _ _ _
            · have h5 : findVal j (insertVal o.order_id o lv'.orders)
                  = findVal j lv'.orders :=
                findVal_insertVal_ne _ _ _ _ hid
              have h6 : (findVal j (insertVal o.order_id o lv'.orders)).isSome := by
                rw [h5]; exact hj0
              exact h6
        · refine ⟨o.side, lv', ?_, hj0⟩
          rw [OrderBook.levels_set_index, OrderBook.levels_setLevels_same,
            findVal_insertVal_ne _ _ _ _ (fun he => hp (he.symm))]
          exact hlv'
      · refine ⟨s0, lv', ?_, hj0⟩
        rw [OrderBook.levels_set_index, OrderBook.levels_setLevels_other _ _ hs]
        exact hlv'
  · intro p lv1 lv2 h1 h2 j hj1 hj2
    revert h1 h2
    cases hside : o.side with
    | Bid =>
      intro h1 h2
      have h1' : findVal p (insertVal o.price (lv0.add_order o)
          (b.levels Side.Bid)) = some lv1 := h1
      have h2' : findVal p (b.levels Side.Ask) = some lv2 := h2
      rw [findVal_insertVal] at h1'
      by_cases hp : o.price = p
      · rw [if_pos hp] at h1'
        obtain rfl : lv0.add_order o = lv1 := Option.some.inj h1'
        subst hp
        have hj1' : (findVal j (insertVal o.order_id o lv0.orders)).isSome := hj1
        rw [findVal_insertVal] at hj1'
        by_cases hjid : o.order_id = j
        · subst hjid
          obtain ⟨oj, hoj⟩ := Option.isSome_iff_exists.mp hj2
          exact hX.absent Side.Ask (o.price, lv2) (mem_of_findVal h2')
            (o.order_id, oj) (mem_of_findVal hoj) rfl
        · rw [if_neg hjid] at hj1'
          rcases hfind with ⟨_, hford⟩ | hfsome
          · rw [hford] at hj1'
            simp [findVal] at hj1'
          · rw [hside] at hfsome
            have hfb : findVal o.price b.bids = some lv0 := hfsome
            exact hX.nodup o.price lv0 lv2 hfb h2' j hj1' hj2
      · rw [if_neg hp] at h1'
        exact hX.nodup p lv1 lv2 h1' h2' j hj1 hj2
    | Ask =>
      intro h1 h2
      have h1' : findVal p (b.levels Side.Bid) = some lv1 := h1
      have h2' : findVal p (insertVal o.price (lv0.add_order o)
          (b.levels Side.Ask)) = some lv2 := h2
      rw [findVal_insertVal] at h2'
      by_cases hp : o.price = p
      · rw [if_pos hp] at h2'
        obtain rfl : lv0.add_order o = lv2 := Option.some.inj h2'
        subst hp
        have hj2' : (findVal j (insertVal o.order_id o lv0.orders)).isSome := hj2
        rw [findVal_insertVal] at hj2'
        by_cases hjid : o.order_id = j
        · subst hjid
          obtain ⟨oj, hoj⟩ := Option.isSome_iff_exists.mp hj1
          exact hX.absent Side.Bid (o.price, lv1) (mem_of_findVal h1')
            (o.order_id, oj) (mem_of_findVal hoj) rfl
        · rw [if_neg hjid] at hj2'
          rcases hfind with ⟨_, hford⟩ | hfsome
          · rw [hford] at hj2'
            simp [findVal] at hj2'
          · rw [hside] at hfsome
            have hfa : findVal o.price b.asks = some lv0 := hfsome
            exact hX.nodup o.price lv1 lv0 h1' hfa j hj1 hj2'
      · rw [if_neg hp] at h2'
        exact hX.nodup p lv1 lv2 h1' h2' j hj1 hj2

theorem OrderBook.inv_add_order {b : OrderBook} (hInv : b.Inv) (o : Order) :
    (b.add_order o).Inv :=
  OrderBook.inv_insertNew (OrderBook.invX_removeExisting hInv o.order_id)

theorem OrderBook.remove_order_absent {b : OrderBook} {id : Nat}
    (h : findVal id b.order_index = none) : b.remove_order id = (none, b) := by
  simp [OrderBook.remove_order, h]

theorem OrderBook.remove_order_eq {b : OrderBook} {id : Nat} {o : Order}
    (hInv : b.Inv) (hget : b.get_order id = some o) :
    ∃ lv, findVal o.price (b.levels o.side) = some lv ∧
      findVal id lv.orders = some o ∧
      ∀ b2, b2 = b.setLevels o.side
          (if (eraseKey id lv.orders).isEmpty then
            eraseKey o.price (b.levels o.side)
          else insertVal o.price { lv with orders := eraseKey id lv.orders }
            (b.levels o.side)) →
        b.remove_order id =
          (some o, { b2 with order_index := eraseKey id b.order_index }) := by
  obtain ⟨hoid, hidx, lv, hlv, ho⟩ := hInv.get_order_some hget
  refine ⟨lv, hlv, ho, ?_⟩
  intro b2 hb2
  subst hb2
  revert hlv
  cases hside : o.side with
  | Bid =>
    intro hlv
    have hb : findVal o.price b.bids = some lv := hlv
    have hsb : SortedKeys b.bids := hInv.sorted_levels .Bid
    by_cases hc : eraseKey id lv.orders = [] <;>
      simp [OrderBook.remove_order, OrderBook.removeFromLevels,
        OrderBook.cleanupLevel, OrderBook.levels, OrderBook.setLevels,
        OrderLevel.remove_order, OrderLevel.is_empty, hidx, hb, ho, hc, hside,
        findVal_insertVal_self, eraseKey_insertVal _ hsb]
  | Ask =>
    intro hlv
    have ha : findVal o.price b.asks = some lv := hlv
    have hsa : SortedKeys b.asks := hInv.sorted_levels .Ask
    cases hbb : findVal o.price b.bids with
    | none =>
      by_cases hc : eraseKey id lv.orders = [] <;>
        simp [OrderBook.remove_order, OrderBook.removeFromLevels,
          OrderBook.cleanupLevel, OrderBook.levels, OrderBook.setLevels,
          OrderLevel.remove_order, OrderLevel.is_empty, hidx, hbb, ha, ho, hc,
          hside, findVal_insertVal_self, eraseKey_insertVal _ hsa]
    | some lv' =>
      have hg' : findVal id lv'.orders = none := by
        cases hgg : findVal id lv'.orders with
        | none => rfl
        | some o' =>
          exact absurd
            (hInv.nodup o.price lv' lv hbb ha id
              (Option.isSome_iff_exists.mpr ⟨o', hgg⟩)
              (Option.isSome_iff_exists.mpr ⟨o, ho⟩)) (fun f => f)
      by_cases hc : eraseKey id lv.orders = [] <;>
        simp [OrderBook.remove_order, OrderBook.removeFromLevels,
          OrderBook.cleanupLevel, OrderBook.levels, OrderBook.setLevels,
          OrderLevel.remove_order, OrderLevel.is_empty, hidx, hbb, hg', ha, ho,
          hc, hside, findVal_insertVal_self, eraseKey_insertVal _ hsa]

theorem OrderBook.inv_remove_order {b : OrderBook} (hInv : b.Inv) (id : Nat) :
    ((b.remove_order id).2).Inv := by
  cases hget : b.get_order id with
  | none =>
    rw [OrderBook.remove_order_absent ((hInv.get_order_none_iff id).mp hget)]
    exact hInv
  | some o =>
    obtain ⟨lv, hlv, ho, heq⟩ := OrderBook.remove_order_eq hInv hget
    rw [heq _ rfl]
    have hox : (b.setLevels o.side
        (if (eraseKey id lv.orders).isEmpty then
          eraseKey o.price (b.levels o.side)
        else insertVal o.price { lv with orders := eraseKey id lv.orders }
          (b.levels o.side))).order_index = b.order_index :=
      OrderBook.order_index_setLevels _ _ _
    rw [← hox]
    exact OrderBook.inv_of_invX_erase_index (OrderBook.invX_eraseLevel hInv hlv ho)

theorem OrderBook.modify_order_absent {b : OrderBook} {id : Nat} (q : Nat)
    (h : findVal id b.order_index = none) :
    b.modify_order id q = .error (.OrderNotFound id) := by
  simp [OrderBook.modify_order, h]

theorem OrderBook.modify_order_eq {b : OrderBook} {id : Nat} {o : Order}
    (hInv : b.Inv) (hget : b.get_order id = some o) (q : Nat) :
    ∃ lv, findVal o.price (b.levels o.side) = some lv ∧
      findVal id lv.orders = some o ∧
      b.modify_order id q =
        .ok (b.setLevels o.side
          (insertVal o.price
            { lv with orders := insertVal id { o with size := q } lv.orders }
            (b.levels o.side))) := by
  obtain ⟨hoid, hidx, lv, hlv, ho⟩ := hInv.get_order_some hget
  refine ⟨lv, hlv, ho, ?_⟩
  revert hlv
  cases hside : o.side with
  | Bid =>
    intro hlv
    have hb : findVal o.price b.bids = some lv := hlv
    simp [OrderBook.modify_order, OrderBook.modifyInLevels, OrderBook.levels,
      OrderBook.setLevels, OrderLevel.get_order, OrderLevel.modify_order,
      Except.map, hidx, hb, ho, hside]
  | Ask =>
    intro hlv
    have ha : findVal o.price b.asks = some lv := hlv
    cases hbb : findVal o.price b.bids with
    | none =>
      simp [OrderBook.modify_order, OrderBook.modifyInLevels, OrderBook.levels,
        OrderBook.setLevels, OrderLevel.get_order, OrderLevel.modify_order,
        Except.map, hidx, hbb, ha, ho, hside]
    | some lv' =>
      have hg' : findVal id lv'.orders = none := by
        cases hgg : findVal id lv'.orders with
        | none => rfl
        | some o' =>
          exact absurd
            (hInv.nodup o.price lv' lv hbb ha id
              (Option.isSome_iff_exists.mpr ⟨o', hgg⟩)
              (Option.isSome_iff_exists.mpr ⟨o, ho⟩)) (fun f => f)
      simp [OrderBook.modify_order, OrderBook.modifyInLevels, OrderBook.levels,
        OrderBook.setLevels, OrderLevel.get_order, OrderLevel.modify_order,
        Except.map, hidx, hbb, hg', ha, ho, hside]

theorem OrderBook.inv_modifyLevel {b : OrderBook} (hInv : b.Inv) {s : Side}
    {price : Int} {lv : OrderLevel} {id : Nat} {o : Order} (q : Nat)
    (hlv : findVal price (b.levels s) = some lv)
    (ho : findVal id lv.orders = some o) :
    (b.setLevels s
      (insertVal price
        { lv with orders := insertVal id { o with size := q } lv.orders }
        (b.levels s))).Inv := by
  have hsort : SortedKeys (b.levels s) := hInv.sorted_levels s
  have hwf0 : lv.WF s price := hInv.wf s (price, lv) (mem_of_findVal hlv)
  have hOrdSort : SortedKeys lv.orders := hwf0.2.1
  have hwfo := hwf0.2.2.2 (id, o) (mem_of_findVal ho)
  have hidx : findVal id b.order_index = some price :=
    hInv.complete s (price, lv) (mem_of_findVal hlv) (id, o) (mem_of_findVal ho)
  refine ⟨?_, ?_, ?_, ?_, ?_, ?_⟩
  · intro s''
    by_cases hs : s'' = s
    · subst hs
      rw [OrderBook.levels_setLevels_same]
      exact sorted_insertVal hsort
    · rw [OrderBook.levels_setLevels_other _ _ hs]
      exact hInv.sorted_levels s''
  · rw [OrderBook.order_index_setLevels]
    exact hInv.sorted_index
  · intro s'' x hx
    by_cases hs : s'' = s
    · subst hs
      rw [OrderBook.levels_setLevels_same] at hx
      rcases mem_insertVal_strong hsort hx with hx1 | hx2
      · subst hx1
        refine ⟨hwf0.1, sorted_insertVal hOrdSort, insertVal_ne_nil _ _ _, ?_⟩
        intro y hy
        have hy' : y ∈ insertVal id { o with size := q } lv.orders := hy
        rcases mem_insertVal hy' with hy1 | hy2
        · subst hy1
          exact ⟨hwfo.1, hwfo.2.1, hwfo.2.2⟩
        · exact hwf0.2.2.2 y hy2
      · exact hInv.wf _ x hx2.1
    · rw [OrderBook.levels_setLevels_other _ _ hs] at hx
      exact hInv.wf _ x hx
  · intro s'' x hx y hy
    rw [OrderBook.order_index_setLevels]
    by_cases hs : s'' = s
    · subst hs
      rw [OrderBook.levels_setLevels_same] at hx
      rcases mem_insertVal_strong hsort hx with hx1 | hx2
      · subst hx1
        have hy' : y ∈ insertVal id { o with size := q } lv.orders := hy
        rcases mem_insertVal hy' with hy1 | hy2
        · subst hy1
          exact hidx
        · exact hInv.complete _ (price, lv) (mem_of_findVal hlv) y hy2
      · exact hInv.complete _ x hx2.1 y hy
    · rw [OrderBook.levels_setLevels_other _ _ hs] at hx
      exact hInv.complete _ x hx y hy
  · intro j p hj
    rw [OrderBook.order_index_setLevels] at hj
    obtain ⟨s0, lv0, hlv0, hj0⟩ := hInv.sound j p hj
    by_cases hs : s0 = s
    · subst hs
      by_cases hp : p = price
      · subst hp
        obtain rfl : lv0 = lv := Option.some.inj (hlv0.symm.trans hlv)
        refine ⟨s0,
          { lv0 with orders := insertVal id { o with size := q } lv0.orders },
          ?_, ?_⟩
        · rw [OrderBook.levels_setLevels_same]
          exact findVal_insertVal_self _ _ _
        · by_cases hij : id = j
          · subst hij
            have h5 : findVal id (insertVal id { o with size := q } lv0.orders)
                = some { o with size := q } := findVal_insertVal_self _ _ _
            exact Option.isSome_iff_exists.mpr ⟨_, h5⟩
          · have h5 : findVal j (insertVal id { o with size := q } lv0.orders)
                = findVal j lv0.orders := findVal_insertVal_ne _ _ _ _ hij
            have h6 : (findVal j (insertVal id { o with size := q }
                lv0.orders)).isSome := by
              rw [h5]; exact hj0
            exact h6
      · refine ⟨s0, lv0, ?_, hj0⟩
        rw [OrderBook.levels_setLevels_same,
          findVal_insertVal_ne _ _ _ _ (fun he => hp he.symm)]
        exact hlv0
    · refine ⟨s0, lv0, ?_, hj0⟩
      rw [OrderBook.levels_setLevels_other _ _ hs]
      exact hlv0
  · intro p lv1 lv2 h1 h2 j hj1 hj2
    revert h1 h2
    cases s with
    | Bid =>
      intro h1 h2
      have h1' : findVal p (insertVal price
          { lv with orders := insertVal id { o with size := q } lv.orders }
          (b.levels Side.Bid)) = some lv1 := h1
      have h2' : findVal p (b.levels Side.Ask) = some lv2 := h2
      rw [findVal_insertVal] at h1'
      by_cases hp : price = p
      · rw [if_pos hp] at h1'
        obtain rfl :
            ({ lv with orders := insertVal id { o with size := q } lv.orders }
              : OrderLevel) = lv1 := Option.some.inj h1'
        subst hp
        have hj1' : (findVal j (insertVal id { o with size := q }
            lv.orders)).isSome := hj1
        rw [findVal_insertVal] at hj1'
        have hjlv : (findVal j lv.orders).isSome := by
          by_cases hij : id = j
          · subst hij
            exact Option.isSome_iff_exists.mpr ⟨o, ho⟩
          · rw [if_neg hij] at hj1'
            exact hj1'
        exact hInv.nodup price lv lv2 hlv h2' j hjlv hj2
      · rw [if_neg hp] at h1'
        exact hInv.nodup p lv1 lv2 h1' h2' j hj1 hj2
    | Ask =>
      intro h1 h2
      have h1' : findVal p (b.levels Side.Bid) = some lv1 := h1
      have h2' : findVal p (insertVal price
          { lv with orders := insertVal id { o with size := q } lv.orders }
          (b.levels Side.Ask)) = some lv2 := h2
      rw [findVal_insertVal] at h2'
      by_cases hp : price = p
      · rw [if_pos hp] at h2'
        obtain rfl :
            ({ lv with orders := insertVal id { o with size := q } lv.orders }
              : OrderLevel) = lv2 := Option.some.inj h2'
        subst hp
        have hj2' : (findVal j (insertVal id { o with size := q }
            lv.orders)).isSome := hj2
        rw [findVal_insertVal] at hj2'
        have hjlv : (findVal j lv.orders).isSome := by
          by_cases hij : id = j
          · subst hij
            exact Option.isSome_iff_exists.mpr ⟨o, ho⟩
          · rw [if_neg hij] at hj2'
            exact hj2'
        exact hInv.nodup price lv1 lv h1' hlv j hj1 hjlv
      · rw [if_neg hp] at h2'
        exact hInv.nodup p lv1 lv2 h1' h2' j hj1 hj2

theorem OrderBook.inv_modify_order {b : OrderBook} (hInv : b.Inv) (id q : Nat)
    {b2 : OrderBook} (h : b.modify_order id q = .ok b2) : b2.Inv := by
  cases hget : b.get_order id with
  | none =>
    rw [OrderBook.modify_order_absent q ((hInv.get_order_none_iff id).mp hget)] at h
    exact absurd h (by simp)
  | some o =>
    obtain ⟨lv, hlv, ho, heq⟩ := OrderBook.modify_order_eq hInv hget q
    rw [heq] at h
    obtain rfl := Except.ok.inj h
    exact OrderBook.inv_modifyLevel hInv q hlv ho

theorem OrderBook.fill_order_absent {b : OrderBook} {id : Nat} (q : Nat)
    (h : b.get_order id = none) :
    b.fill_order id q = .error (.OrderNotFound id) := by
  simp [OrderBook.fill_order, h]

theorem OrderBook.fill_order_exceeds {b : OrderBook} {id q : Nat} {o : Order}
    (h : b.get_order id = some o) (hlt : o.size < q) :
    b.fill_order id q = .error (.FillQuantityExceedsOrderSize q o.size) := by
  simp [OrderBook.fill_order, h, hlt]

theorem OrderBook.fill_order_full {b : OrderBook} {id q : Nat} {o : Order}
    (h : b.get_order id = some o) (hge : ¬ o.size < q) (hz : o.size - q = 0) :
    b.fill_order id q = .ok (b.remove_order id).2 := by
  simp [OrderBook.fill_order, h, hge, hz]

theorem OrderBook.fill_order_partial {b : OrderBook} {id q : Nat} {o : Order}
    (h : b.get_order id = some o) (hge : ¬ o.size < q) (hz : o.size - q ≠ 0) :
    b.fill_order id q = b.modify_order id (o.size - q) := by
  simp [OrderBook.fill_order, h, hge, hz]

theorem OrderBook.inv_fill_order {b : OrderBook} (hInv : b.Inv) (id q : Nat)
    {b2 : OrderBook} (h : b.fill_order id q = .ok b2) : b2.Inv := by
  cases hget : b.get_order id with
  | none =>
    rw [OrderBook.fill_order_absent q hget] at h
    exact absurd h (by simp)
  | some o =>
    by_cases hlt : o.size < q
    · rw [OrderBook.fill_order_exceeds hget hlt] at h
      exact absurd h (by simp)
    · by_cases hz : o.size - q = 0
      · rw [OrderBook.fill_order_full hget hlt hz] at h
        obtain rfl := Except.ok.inj h
        exact OrderBook.inv_remove_order hInv id
      · rw [OrderBook.fill_order_partial hget hlt hz] at h
        exact OrderBook.inv_modify_order hInv id (o.size - q) h

theorem OrderBook.inv_applyOp {b : OrderBook} (hInv : b.Inv) (op : Op) :
    (applyOp b op).Inv := by
  cases op with
  | add o => exact OrderBook.inv_add_order hInv o
  | remove id => exact OrderBook.inv_remove_order hInv id
  | modify id q =>
    show (match b.modify_order id q with
      | .ok b2 => b2
      | .error _ => b).Inv
    cases h : b.modify_order id q with
    | ok b2 => exact OrderBook.inv_modify_order hInv id q h
    | error e => exact hInv
  | fill id q =>
    show (match b.fill_order id q with
      | .ok b2 => b2
      | .error _ => b).Inv
    cases h : b.fill_order id q with
    | ok b2 => exact OrderBook.inv_fill_order hInv id q h
    | error e => exact hInv

theorem OrderBook.inv_foldl (ops : List Op) :
    ∀ b : OrderBook, b.Inv → (ops.foldl applyOp b).Inv := by
  induction ops with
  | nil => exact fun b h => h
  | cons op t ih => exact fun b h => ih _ (OrderBook.inv_applyOp h op)

theorem inv_runOps (ops : List Op) : (runOps ops).Inv :=
  OrderBook.inv_foldl ops OrderBook.empty OrderBook.inv_empty

/-! ### Further helper lemmas for the claims -/

theorem OrderBook.setLevels_self (b : OrderBook) (s : Side) :
    b.setLevels s (b.levels s) = b := by
  cases s <;> rfl

theorem OrderBook.best_bid_eq_of_bids {b b2 : OrderBook} (h : b2.bids = b.bids) :
    b2.best_bid = b.best_bid := by
  rw [OrderBook.best_bid, OrderBook.best_bid, h]

theorem OrderBook.best_ask_eq_of_asks {b b2 : OrderBook} (h : b2.asks = b.asks) :
    b2.best_ask = b.best_ask := by
  rw [OrderBook.best_ask, OrderBook.best_ask, h]

theorem getLast_max {α β : Type} [LinearOrder α] {l : List (α × β)}
    (hs : SortedKeys l) (hne : l ≠ []) :
    ∃ x, l.getLast? = some x ∧ x ∈ l ∧ ∀ y ∈ l, y.1 ≤ x.1 := by
  induction l with
  | nil => exact absurd rfl hne
  | cons p t ih =>
    cases t with
    | nil =>
      refine ⟨p, rfl, List.mem_cons_self _ _, ?_⟩
      intro y hy
      rcases List.mem_cons.mp hy with h | h
      · rw [h]
      · simp at h
    | cons q t' =>
      obtain ⟨x, hx1, hx2, hx3⟩ := ih (List.pairwise_cons.mp hs).2 (by simp)
      refine ⟨x, ?_, List.mem_cons_of_mem _ hx2, ?_⟩
      · rw [List.getLast?_cons_cons]
        exact hx1
      · intro y hy
        rcases List.mem_cons.mp hy with h | h
        · rw [h]
          exact le_of_lt ((List.pairwise_cons.mp hs).1 x hx2)
        · exact hx3 y h

theorem head_min {α β : Type} [LinearOrder α] {l : List (α × β)}
    (hs : SortedKeys l) (hne : l ≠ []) :
    ∃ x, l.head? = some x ∧ x ∈ l ∧ ∀ y ∈ l, x.1 ≤ y.1 := by
  cases l with
  | nil => exact absurd rfl hne
  | cons p t =>
    refine ⟨p, rfl, List.mem_cons_self _ _, ?_⟩
    intro y hy
    rcases List.mem_cons.mp hy with h | h
    · rw [h]
    · exact le_of_lt ((List.pairwise_cons.mp hs).1 y h)

theorem OrderBook.insertNew_levels_other (b : OrderBook) (o : Order) {s' : Side}
    (h : s' ≠ o.side) : (b.insertNew o).levels s' = b.levels s' := by
  cases hfl : findVal o.price (b.levels o.side) with
  | none =>
    rw [OrderBook.insertNew_eq b o (OrderLevel.new o.price) (by rw [hfl]) _ rfl,
      OrderBook.levels_set_index, OrderBook.levels_setLevels_other _ _ h]
  | some lv =>
    rw [OrderBook.insertNew_eq b o lv (by rw [hfl]) _ rfl,
      OrderBook.levels_set_index, OrderBook.levels_setLevels_other _ _ h]

/-! ### The claims -/

/-- C1 (index consistency invariant): in every book reachable from the empty
book by a finite sequence of `add_order` / `remove_order` / `modify_order` /
`fill_order` operations, (a) every identifier in the order index resolves,
at its recorded price and on the side of the stored order, to a level
containing that very order (so `get_order` returns it with its current
quantity); (b) every order held inside any level has an index entry
recording that level's price; (c) no level on either side is empty. -/
theorem index_consistency (ops : List Op) :
    (∀ id p, findVal id (runOps ops).order_index = some p →
      ∃ lv o, (runOps ops).get_order id = some o ∧ o.order_id = id ∧
        o.price = p ∧ findVal p ((runOps ops).levels o.side) = some lv ∧
        findVal id lv.orders = some o) ∧
    (∀ s p lv, findVal p ((runOps ops).levels s) = some lv →
      ∀ y ∈ lv.orders, findVal y.1 (runOps ops).order_index = some p) ∧
    (∀ s p lv, findVal p ((runOps ops).levels s) = some lv → lv.orders ≠ []) := by
  have hInv := inv_runOps ops
  refine ⟨?_, ?_, ?_⟩
  · intro id p hidx
    obtain ⟨s, lv, hlv, hj⟩ := hInv.sound id p hidx
    obtain ⟨o, ho⟩ := Option.isSome_iff_exists.mp hj
    have hget := hInv.get_order_of_mem hlv ho
    have hwf := (hInv.wf s (p, lv) (mem_of_findVal hlv)).2.2.2 (id, o)
      (mem_of_findVal ho)
    refine ⟨lv, o, hget, hwf.1, hwf.2.2, ?_, ho⟩
    rw [hwf.2.1]
    exact hlv
  · intro s p lv hlv y hy
    exact hInv.complete s (p, lv) (mem_of_findVal hlv) y hy
  · intro s p lv hlv
    exact (hInv.wf s (p, lv) (mem_of_findVal hlv)).2.2.1

/-- C9 (market-by-price projection): `MarketByPrice.ofBook` maps every level
on each side to a summary whose price is the level's price field, whose
total quantity is the recomputed sum of its orders' sizes and whose order
count is the recomputed number of its orders; it introduces no other
entries, preserves the per-side price ordering (the key sequences are
unchanged), and sends the empty book to the empty snapshot. -/
theorem mbp_projection (b : OrderBook) :
    ((MarketByPrice.ofBook b).bids.map Prod.fst = b.bids.map Prod.fst) ∧
    ((MarketByPrice.ofBook b).asks.map Prod.fst = b.asks.map Prod.fst) ∧
    (∀ p lv, findVal p b.bids = some lv →
      findVal p (MarketByPrice.ofBook b).bids =
        some ⟨lv.price, (lv.orders.map fun y => y.2.size).sum, lv.orders.length⟩) ∧
    (∀ p lv, findVal p b.asks = some lv →
      findVal p (MarketByPrice.ofBook b).asks =
        some ⟨lv.price, (lv.orders.map fun y => y.2.size).sum, lv.orders.length⟩) ∧
    (∀ p u, findVal p (MarketByPrice.ofBook b).bids = some u →
      ∃ lv, findVal p b.bids = some lv ∧ u = OrderLevelSummary.ofLevel lv) ∧
    (∀ p u, findVal p (MarketByPrice.ofBook b).asks = some u →
      ∃ lv, findVal p b.asks = some lv ∧ u = OrderLevelSummary.ofLevel lv) ∧
    (MarketByPrice.ofBook OrderBook.empty = ⟨[], []⟩) := by
  refine ⟨?_, ?_, ?_, ?_, ?_, ?_, rfl⟩
  · simp [MarketByPrice.ofBook, List.map_map]
  · simp [MarketByPrice.ofBook, List.map_map]
  · intro p lv hlv
    have h1 : findVal p (MarketByPrice.ofBook b).bids
        = (findVal p b.bids).map OrderLevelSummary.ofLevel :=
      findVal_map OrderLevelSummary.ofLevel p b.bids
    rw [h1, hlv]
    rfl
  · intro p lv hlv
    have h1 : findVal p (MarketByPrice.ofBook b).asks
        = (findVal p b.asks).map OrderLevelSummary.ofLevel :=
      findVal_map OrderLevelSummary.ofLevel p b.asks
    rw [h1, hlv]
    rfl
  · intro p u hu
    have h1 : findVal p (MarketByPrice.ofBook b).bids
        = (findVal p b.bids).map OrderLevelSummary.ofLevel :=
      findVal_map OrderLevelSummary.ofLevel p b.bids
    rw [h1] at hu
    obtain ⟨lv, h2, h3⟩ := Option.map_eq_some'.mp hu
    exact ⟨lv, h2, h3.symm⟩
  · intro p u hu
    have h1 : findVal p (MarketByPrice.ofBook b).asks
        = (findVal p b.asks).map OrderLevelSummary.ofLevel :=
      findVal_map OrderLevelSummary.ofLevel p b.asks
    rw [h1] at hu
    obtain ⟨lv, h2, h3⟩ := Option.map_eq_some'.mp hu
    exact ⟨lv, h2, h3.symm⟩

/-- C10 (a successful index lookup never dangles): in every reachable book,
an identifier resolved by the index has a resting order, so
`modify_order` cannot reach its trailing `OrderNotFound` fallback and
`remove_order` cannot reach its "price level not found" branch (its removed
result is always `some`). -/
theorem index_never_dangles (ops : List Op) (id : Nat) (p : Int)
    (hidx : findVal id (runOps ops).order_index = some p) :
    ((runOps ops).get_order id).isSome ∧
    (∀ q, ∃ b2, (runOps ops).modify_order id q = .ok b2) ∧
    ((runOps ops).remove_order id).1.isSome := by
  have hInv := inv_runOps ops
  have hg : (runOps ops).get_order id ≠ none := by
    intro h
    rw [(hInv.get_order_none_iff id).mp h] at hidx
    exact Option.noConfusion hidx
  obtain ⟨o, hget⟩ := Option.ne_none_iff_exists'.mp hg
  refine ⟨by rw [hget]; rfl, ?_, ?_⟩
  · intro q
    obtain ⟨lv, hlv, ho, heq⟩ := OrderBook.modify_order_eq hInv hget q
    exact ⟨_, heq⟩
  · obtain ⟨lv, hlv, ho, heq⟩ := OrderBook.remove_order_eq hInv hget
    rw [heq _ rfl]
    rfl

/-- C2 (fill exactness and error atomicity): with `order_id` resting at
quantity `o.size`, an over-fill fails with
`FillQuantityExceedsOrderSize(requested, available)` and leaves the book
unchanged; a fill of exactly `o.size` succeeds and removes the order, its
index entry, and any emptied level; a partial fill `0 < q < o.size`
succeeds and updates the quantity in place to `o.size - q`; a fill of an
absent identifier fails with `OrderNotFound`. -/
theorem fill_exactness {b : OrderBook} (hInv : b.Inv) (order_id : Nat) :
    (∀ o, b.get_order order_id = some o →
      (∀ q, o.size < q →
        b.fill_order order_id q
            = .error (.FillQuantityExceedsOrderSize q o.size) ∧
          applyOp b (.fill order_id q) = b) ∧
      (∃ b2, b.fill_order order_id o.size = .ok b2 ∧
        b2.get_order order_id = none ∧
        findVal order_id b2.order_index = none ∧
        (∀ s p lv, findVal p (b2.levels s) = some lv → lv.orders ≠ [])) ∧
      (∀ q, 0 < q → q < o.size →
        ∃ b2, b.fill_order order_id q = .ok b2 ∧
          b2.get_order order_id = some { o with size := o.size - q })) ∧
    (b.get_order order_id = none →
      ∀ q, b.fill_order order_id q = .error (.OrderNotFound order_id)) := by
  constructor
  · intro o hget
    refine ⟨?_, ?_, ?_⟩
    · intro q hlt
      have h1 := OrderBook.fill_order_exceeds hget hlt
      refine ⟨h1, ?_⟩
      show (match b.fill_order order_id q with
        | .ok b2 => b2
        | .error _ => b) = b
      rw [h1]
    · have hge : ¬ o.size < o.size := lt_irrefl _
      have hz : o.size - o.size = 0 := Nat.sub_self _
      have h1 := OrderBook.fill_order_full hget hge hz
      obtain ⟨lv, hlv, ho, heq⟩ := OrderBook.remove_order_eq hInv hget
      have hInv2 := OrderBook.inv_remove_order hInv order_id
      refine ⟨(b.remove_order order_id).2, h1, ?_, ?_, ?_⟩
      · rw [heq _ rfl]
        refine OrderBook.get_order_none ?_
        show findVal order_id (eraseKey order_id b.order_index) = none
        exact findVal_eraseKey_self hInv.sorted_index
      · rw [heq _ rfl]
        show findVal order_id (eraseKey order_id b.order_index) = none
        exact findVal_eraseKey_self hInv.sorted_index
      · intro s p lv' h2
        exact (hInv2.wf s (p, lv') (mem_of_findVal h2)).2.2.1
    · intro q h0 hq
      have hge : ¬ o.size < q := lt_asymm hq
      have hz : o.size - q ≠ 0 := Nat.sub_ne_zero_of_lt hq
      have h1 := OrderBook.fill_order_partial hget hge hz
      obtain ⟨lv, hlv, ho, heq⟩ := OrderBook.modify_order_eq hInv hget (o.size - q)
      have hInv2 := OrderBook.inv_modifyLevel hInv (o.size - q) hlv ho
      refine ⟨_, h1.trans heq, ?_⟩
      have hA : findVal o.price ((b.setLevels o.side (insertVal o.price
          { lv with
            orders := insertVal order_id { o with size := o.size - q } lv.orders }
          (b.levels o.side))).levels o.side)
          = some { lv with
              orders := insertVal order_id { o with size := o.size - q } lv.orders } := by
        rw [OrderBook.levels_setLevels_same]
        exact findVal_insertVal_self _ _ _
      exact hInv2.get_order_of_mem hA (findVal_insertVal_self _ _ _)
  · intro hnone q
    exact OrderBook.fill_order_absent q hnone

/-- Witness for C2: order 1 rests with quantity 10; filling 11 fails with
`FillQuantityExceedsOrderSize 11 10`. -/
theorem fill_exactness_witness :
    (runOps [Op.add ⟨1, Side.Bid, 100, 10⟩]).fill_order 1 11
      = .error (.FillQuantityExceedsOrderSize 11 10) :=
  (((fill_exactness (inv_runOps [Op.add ⟨1, Side.Bid, 100, 10⟩]) 1).1
      ⟨1, Side.Bid, 100, 10⟩ rfl).1 11 (by decide)).1

/-- C3 counterexample: order 1 rests with quantity zero (a state the book
permits: it was added with size 0).  `fill_order 1 0` succeeds but REMOVES
the order — the resulting book is the empty book, not the unchanged one —
so a zero fill on a zero-quantity resting order is not a no-op. -/
theorem fill_zero_removes_zero_size_order :
    (runOps [Op.add ⟨1, Side.Bid, 100, 0⟩]).get_order 1
        = some ⟨1, Side.Bid, 100, 0⟩ ∧
      (runOps [Op.add ⟨1, Side.Bid, 100, 0⟩]).fill_order 1 0
        = .ok OrderBook.empty ∧
      OrderBook.empty.get_order 1 = none ∧
      runOps [Op.add ⟨1, Side.Bid, 100, 0⟩] ≠ OrderBook.empty :=
  ⟨rfl, rfl, rfl, by decide⟩

/-- C3 amended: for an order resting with positive quantity,
`fill_order(order_id, 0)` succeeds and is a true no-op — it returns the
book itself unchanged; for an order resting with quantity zero it still
succeeds but takes the `new_size == 0` branch and removes the order. -/
theorem fill_zero_noop {b : OrderBook} (hInv : b.Inv) {order_id : Nat}
    {o : Order} (hget : b.get_order order_id = some o) :
    (0 < o.size → b.fill_order order_id 0 = .ok b) ∧
    (o.size = 0 → ∃ b2, b.fill_order order_id 0 = .ok b2 ∧
      b2.get_order order_id = none) := by
  constructor
  · intro hpos
    have hge : ¬ o.size < 0 := Nat.not_lt_zero _
    have hz : o.size - 0 ≠ 0 := by
      rw [Nat.sub_zero]
      exact Nat.pos_iff_ne_zero.mp hpos
    rw [OrderBook.fill_order_partial hget hge hz]
    obtain ⟨lv, hlv, ho, heq⟩ := OrderBook.modify_order_eq hInv hget (o.size - 0)
    rw [heq]
    have hOrdSort : SortedKeys lv.orders :=
      (hInv.wf o.side (o.price, lv) (mem_of_findVal hlv)).2.1
    have h1 : ({ o with size := o.size - 0 } : Order) = o := by
      rw [Nat.sub_zero]
    rw [h1, insertVal_self hOrdSort ho]
    have h2 : ({ lv with orders := lv.orders } : OrderLevel) = lv := rfl
    rw [h2, insertVal_self (hInv.sorted_levels o.side) hlv,
      OrderBook.setLevels_self]
  · intro hzero
    have hge : ¬ o.size < 0 := Nat.not_lt_zero _
    have hz : o.size - 0 = 0 := by rw [Nat.sub_zero, hzero]
    rw [OrderBook.fill_order_full hget hge hz]
    obtain ⟨lv, hlv, ho, heq⟩ := OrderBook.remove_order_eq hInv hget
    refine ⟨_, rfl, ?_⟩
    rw [heq _ rfl]
    refine OrderBook.get_order_none ?_
    show findVal order_id (eraseKey order_id b.order_index) = none
    exact findVal_eraseKey_self hInv.sorted_index

/-- Witness for the amended C3: a zero fill of an order resting with
positive quantity returns the book unchanged. -/
theorem fill_zero_noop_witness :
    (runOps [Op.add ⟨1, Side.Bid, 100, 10⟩]).fill_order 1 0
      = .ok (runOps [Op.add ⟨1, Side.Bid, 100, 10⟩]) :=
  (@fill_zero_noop (runOps [Op.add ⟨1, Side.Bid, 100, 10⟩])
    (inv_runOps [Op.add ⟨1, Side.Bid, 100, 10⟩]) 1 ⟨1, Side.Bid, 100, 10⟩
    rfl).1 (by decide)

/-- C5 (modify in place): `modify_order` on an absent identifier fails with
`OrderNotFound` (and, being a pure lookup failure, changes nothing);
on a resting order it succeeds, replaces exactly that order's quantity in
place (same identifier, side and price, including `new_size = 0`, which
leaves a zero-quantity order resting), keeps every other order's lookup
result and every level's key set unchanged on both sides, leaves the
index untouched, and leaves the opposite side's collection untouched. -/
theorem modify_in_place {b : OrderBook} (hInv : b.Inv) (order_id new_size : Nat) :
    (b.get_order order_id = none →
      b.modify_order order_id new_size = .error (.OrderNotFound order_id)) ∧
    (∀ o, b.get_order order_id = some o →
      ∃ b2, b.modify_order order_id new_size = .ok b2 ∧
        b2.get_order order_id = some { o with size := new_size } ∧
        b2.order_index = b.order_index ∧
        (∀ j, j ≠ order_id → b2.get_order j = b.get_order j) ∧
        (∀ s, (b2.levels s).map Prod.fst = (b.levels s).map Prod.fst) ∧
        (b2.levels o.side.other = b.levels o.side.other)) := by
  constructor
  · intro hnone
    exact OrderBook.modify_order_absent new_size
      ((hInv.get_order_none_iff order_id).mp hnone)
  · intro o hget
    obtain ⟨lv, hlv, ho, heq⟩ := OrderBook.modify_order_eq hInv hget new_size
    have hInv2 := OrderBook.inv_modifyLevel hInv new_size hlv ho
    refine ⟨_, heq, ?_, ?_, ?_, ?_, ?_⟩
    · have hA : findVal o.price ((b.setLevels o.side (insertVal o.price
          { lv with
            orders := insertVal order_id { o with size := new_size } lv.orders }
          (b.levels o.side))).levels o.side)
          = some { lv with
              orders := insertVal order_id { o with size := new_size } lv.orders } := by
        rw [OrderBook.levels_setLevels_same]
        exact findVal_insertVal_self _ _ _
      exact hInv2.get_order_of_mem hA (findVal_insertVal_self _ _ _)
    · exact OrderBook.order_index_setLevels _ _ _
    · intro j hj
      cases hij : findVal j b.order_index with
      | none =>
        have h2 : findVal j (b.setLevels o.side (insertVal o.price
            { lv with
              orders := insertVal order_id { o with size := new_size } lv.orders }
            (b.levels o.side))).order_index = none := by
          rw [OrderBook.order_index_setLevels]
          exact hij
        rw [OrderBook.get_order_none h2, OrderBook.get_order_none hij]
      | some pj =>
        obtain ⟨sj, lvj, hlvj, hjs⟩ := hInv.sound j pj hij
        obtain ⟨oj, hoj⟩ := Option.isSome_iff_exists.mp hjs
        have hbj : b.get_order j = some oj := hInv.get_order_of_mem hlvj hoj
        rw [hbj]
        by_cases hsj : sj = o.side
        · subst hsj
          by_cases hpj : pj = o.price
          · subst hpj
            obtain rfl : lvj = lv := Option.some.inj (hlvj.symm.trans hlv)
            have hA : findVal o.price ((b.setLevels o.side (insertVal o.price
                { lvj with
                  orders := insertVal order_id { o with size := new_size } lvj.orders }
                (b.levels o.side))).levels o.side)
                = some { lvj with
                    orders := insertVal order_id { o with size := new_size } lvj.orders } := by
              rw [OrderBook.levels_setLevels_same]
              exact findVal_insertVal_self _ _ _
            have hB : findVal j (insertVal order_id { o with size := new_size }
                lvj.orders) = some oj := by
              rw [findVal_insertVal_ne _ _ _ _ (fun he => hj he.symm)]
              exact hoj
            exact hInv2.get_order_of_mem hA hB
          · have hA : findVal pj ((b.setLevels o.side (insertVal o.price
                { lv with
                  orders := insertVal order_id { o with size := new_size } lv.orders }
                (b.levels o.side))).levels o.side) = some lvj := by
              rw [OrderBook.levels_setLevels_same,
                findVal_insertVal_ne _ _ _ _ (fun he => hpj he.symm)]
              exact hlvj
            exact hInv2.get_order_of_mem hA hoj
        · have hA : findVal pj ((b.setLevels o.side (insertVal o.price
              { lv with
                orders := insertVal order_id { o with size := new_size } lv.orders }
              (b.levels o.side))).levels sj) = some lvj := by
            rw [OrderBook.levels_setLevels_other _ _ hsj]
            exact hlvj
          exact hInv2.get_order_of_mem hA hoj
    · intro s
      by_cases hs : s = o.side
      · subst hs
        rw [OrderBook.levels_setLevels_same]
        exact keys_insertVal_self (hInv.sorted_levels o.side) hlv
      · rw [OrderBook.levels_setLevels_other _ _ hs]
    · rw [OrderBook.levels_setLevels_other _ _ (Side.other_ne o.side)]

/-- Witness for C5: modifying a resting order to quantity 0 succeeds and
leaves a zero-quantity order resting in the book. -/
theorem modify_in_place_witness :
    (runOps [Op.add ⟨1, Side.Bid, 100, 10⟩, Op.modify 1 0]).get_order 1
      = some ⟨1, Side.Bid, 100, 0⟩ := by
  obtain ⟨b2, h1, h2, _⟩ :=
    (modify_in_place (inv_runOps [Op.add ⟨1, Side.Bid, 100, 10⟩]) 1 0).2
      ⟨1, Side.Bid, 100, 10⟩ rfl
  have h3 : (runOps [Op.add ⟨1, Side.Bid, 100, 10⟩]).modify_order 1 0
      = .ok (runOps [Op.add ⟨1, Side.Bid, 100, 10⟩, Op.modify 1 0]) := rfl
  rw [h3] at h1
  have h4 : runOps [Op.add ⟨1, Side.Bid, 100, 10⟩, Op.modify 1 0] = b2 :=
    Except.ok.inj h1
  rw [← h4] at h2
  exact h2

/-- C6 (idempotent cancel): removing an absent identifier returns
`(none, b)` — the book is literally unchanged and no error exists in the
return type; removing a resting order returns it, deletes it from its
level, deletes the level when it was the sole occupant, and deletes its
index entry while leaving every other index entry unchanged. -/
theorem remove_idempotent {b : OrderBook} (hInv : b.Inv) (order_id : Nat) :
    (b.get_order order_id = none → b.remove_order order_id = (none, b)) ∧
    (∀ o, b.get_order order_id = some o →
      (b.remove_order order_id).1 = some o ∧
      ((b.remove_order order_id).2).get_order order_id = none ∧
      findVal order_id ((b.remove_order order_id).2).order_index = none ∧
      (∀ j, j ≠ order_id →
        findVal j ((b.remove_order order_id).2).order_index
          = findVal j b.order_index) ∧
      (∀ lv, findVal o.price (((b.remove_order order_id).2).levels o.side)
          = some lv → findVal order_id lv.orders = none) ∧
      (∀ lv, findVal o.price (b.levels o.side) = some lv → lv.order_count = 1 →
        findVal o.price (((b.remove_order order_id).2).levels o.side)
          = none)) := by
  constructor
  · intro hnone
    exact OrderBook.remove_order_absent
      ((hInv.get_order_none_iff order_id).mp hnone)
  · intro o hget
    obtain ⟨lv, hlv, ho, heq⟩ := OrderBook.remove_order_eq hInv hget
    have hOrdSort : SortedKeys lv.orders :=
      (hInv.wf o.side (o.price, lv) (mem_of_findVal hlv)).2.1
    have heq2 := heq _ rfl
    rw [heq2]
    refine ⟨rfl, ?_, ?_, ?_, ?_, ?_⟩
    · refine OrderBook.get_order_none ?_
      show findVal order_id (eraseKey order_id b.order_index) = none
      exact findVal_eraseKey_self hInv.sorted_index
    · show findVal order_id (eraseKey order_id b.order_index) = none
      exact findVal_eraseKey_self hInv.sorted_index
    · intro j hj
      show findVal j (eraseKey order_id b.order_index) = findVal j b.order_index
      exact findVal_eraseKey_ne _ _ _ (fun he => hj he.symm)
    · intro lv' h5
      rw [OrderBook.levels_set_index, OrderBook.levels_setLevels_same] at h5
      by_cases hc : (eraseKey order_id lv.orders).isEmpty = true
      · rw [if_pos hc, findVal_eraseKey_self (hInv.sorted_levels o.side)] at h5
        exact Option.noConfusion h5
      · rw [if_neg hc, findVal_insertVal_self] at h5
        obtain rfl := Option.some.inj h5
        show findVal order_id (eraseKey order_id lv.orders) = none
        exact findVal_eraseKey_self hOrdSort
    · intro lv0 h6 hcount
      obtain rfl : lv0 = lv := Option.some.inj (h6.symm.trans hlv)
      have hlen : lv0.orders.length = 1 := hcount
      obtain ⟨x, hx⟩ := List.length_eq_one.mp hlen
      have hmemx : (order_id, o) ∈ lv0.orders := mem_of_findVal ho
      rw [hx] at hmemx
      obtain rfl : x = (order_id, o) := (List.mem_singleton.mp hmemx).symm
      have hnil : eraseKey order_id lv0.orders = [] := by
        rw [hx]
        simp [eraseKey]
      have hc : (eraseKey order_id lv0.orders).isEmpty = true := by
        rw [hnil]
        rfl
      rw [OrderBook.levels_set_index, OrderBook.levels_setLevels_same,
        if_pos hc]
      exact findVal_eraseKey_self (hInv.sorted_levels o.side)

/-- Witness for C6: a present order is removed and returned; removing from
the empty book is a no-op returning the book unchanged. -/
theorem remove_idempotent_witness :
    ((runOps [Op.add ⟨1, Side.Bid, 100, 10⟩]).remove_order 1).1
        = some ⟨1, Side.Bid, 100, 10⟩ ∧
      OrderBook.empty.remove_order 7 = (none, OrderBook.empty) :=
  ⟨((remove_idempotent (inv_runOps [Op.add ⟨1, Side.Bid, 100, 10⟩]) 1).2
      ⟨1, Side.Bid, 100, 10⟩ rfl).1,
   (remove_idempotent OrderBook.inv_empty 7).1 rfl⟩

/-- C4 (add_order upsert): `add_order` is total (it returns a book, never an
error); afterwards the order rests in the target side's level at its price
with the given quantity and the index maps the identifier there; if the
identifier previously rested at a different (side, price), it is gone from
the old location afterwards, and when the moved order was the old level's
only occupant that old level no longer exists. -/
theorem add_order_upsert {b : OrderBook} (hInv : b.Inv) (o : Order) :
    ((b.add_order o).get_order o.order_id = some o) ∧
    (findVal o.order_id (b.add_order o).order_index = some o.price) ∧
    (∃ lv, findVal o.price ((b.add_order o).levels o.side) = some lv ∧
      findVal o.order_id lv.orders = some o) ∧
    (∀ oldO, b.get_order o.order_id = some oldO →
      oldO.side ≠ o.side ∨ oldO.price ≠ o.price →
      (∀ lv, findVal oldO.price ((b.add_order o).levels oldO.side) = some lv →
        findVal o.order_id lv.orders = none) ∧
      (∀ lv, findVal oldO.price (b.levels oldO.side) = some lv →
        lv.order_count = 1 →
        findVal oldO.price ((b.add_order o).levels oldO.side) = none)) := by
  have hX := OrderBook.invX_removeExisting hInv o.order_id
  have hInv2 := OrderBook.inv_insertNew hX
  have hadd : b.add_order o = (b.removeExisting o.order_id).insertNew o := rfl
  obtain ⟨lv0, hl0⟩ : ∃ lv0,
      (match findVal o.price ((b.removeExisting o.order_id).levels o.side) with
       | none => OrderLevel.new o.price
       | some lv => lv) = lv0 := ⟨_, rfl⟩
  have hEQ := OrderBook.insertNew_eq (b.removeExisting o.order_id) o lv0 hl0 _ rfl
  have hidx2 : findVal o.order_id (b.add_order o).order_index = some o.price := by
    rw [hadd, hEQ]
    exact findVal_insertVal_self _ _ _
  have hlev2 : findVal o.price ((b.add_order o).levels o.side)
      = some (lv0.add_order o) := by
    rw [hadd, hEQ, OrderBook.levels_set_index, OrderBook.levels_setLevels_same]
    exact findVal_insertVal_self _ _ _
  have hord2 : findVal o.order_id (lv0.add_order o).orders = some o :=
    findVal_insertVal_self _ _ _
  refine ⟨hInv2.get_order_of_mem hlev2 hord2, hidx2,
    ⟨lv0.add_order o, hlev2, hord2⟩, ?_⟩
  intro oldO hold hneq
  obtain ⟨lv1, hlv1, ho1, heqX⟩ := OrderBook.removeExisting_eq hInv hold
  constructor
  · intro lv h7
    have h8 : findVal oldO.price ((b.removeExisting o.order_id).levels oldO.side)
        = some lv := by
      rcases hneq with hs | hp
      · rw [hadd, hEQ, OrderBook.levels_set_index,
          OrderBook.levels_setLevels_other _ _ hs] at h7
        exact h7
      · by_cases hs : oldO.side = o.side
        · rw [hadd, hEQ, OrderBook.levels_set_index, hs,
            OrderBook.levels_setLevels_same,
            findVal_insertVal_ne _ _ _ _ (fun he => hp he.symm)] at h7
          rw [hs]
          exact h7
        · rw [hadd, hEQ, OrderBook.levels_set_index,
            OrderBook.levels_setLevels_other _ _ hs] at h7
          exact h7
    exact findVal_eq_none_of_forall
      (fun y hy => hX.absent oldO.side (oldO.price, lv) (mem_of_findVal h8) y hy)
  · intro lv h9 hcount
    obtain rfl : lv = lv1 := Option.some.inj (h9.symm.trans hlv1)
    have hlen : lv.orders.length = 1 := hcount
    obtain ⟨x, hx⟩ := List.length_eq_one.mp hlen
    have hmemx : (o.order_id, oldO) ∈ lv.orders := mem_of_findVal ho1
    rw [hx] at hmemx
    obtain rfl : x = (o.order_id, oldO) := (List.mem_singleton.mp hmemx).symm
    have hnil : eraseKey o.order_id lv.orders = [] := by
      rw [hx]
      simp [eraseKey]
    have hc : (eraseKey o.order_id lv.orders).isEmpty = true := by
      rw [hnil]
      rfl
    have hbX : findVal oldO.price
        ((b.removeExisting o.order_id).levels oldO.side) = none := by
      rw [heqX, OrderBook.levels_setLevels_same, if_pos hc,
        findVal_eraseKey_self (hInv.sorted_levels oldO.side)]
    rcases hneq with hs | hp
    · rw [hadd, hEQ, OrderBook.levels_set_index,
        OrderBook.levels_setLevels_other _ _ hs]
      exact hbX
    · by_cases hs : oldO.side = o.side
      · rw [hadd, hEQ, OrderBook.levels_set_index, hs,
          OrderBook.levels_setLevels_same,
          findVal_insertVal_ne _ _ _ _ (fun he => hp he.symm)]
        rw [hs] at hbX
        exact hbX
      · rw [hadd, hEQ, OrderBook.levels_set_index,
          OrderBook.levels_setLevels_other _ _ hs]
        exact hbX

/-- Witness for C4, the spec's relocation scenario: re-adding id 123 at a
higher price moves it there, and the old 10050 level (sole occupant) is
gone. -/
theorem add_order_upsert_witness :
    ((runOps [Op.add ⟨123, Side.Bid, 10050, 100⟩]).add_order
        ⟨123, Side.Bid, 10051, 150⟩).get_order 123
      = some ⟨123, Side.Bid, 10051, 150⟩ ∧
    findVal 10050 (((runOps [Op.add ⟨123, Side.Bid, 10050, 100⟩]).add_order
        ⟨123, Side.Bid, 10051, 150⟩).levels Side.Bid) = none :=
  ⟨(add_order_upsert (inv_runOps [Op.add ⟨123, Side.Bid, 10050, 100⟩])
      ⟨123, Side.Bid, 10051, 150⟩).1,
   ((add_order_upsert (inv_runOps [Op.add ⟨123, Side.Bid, 10050, 100⟩])
        ⟨123, Side.Bid, 10051, 150⟩).2.2.2 ⟨123, Side.Bid, 10050, 100⟩ rfl
      (Or.inr (by decide))).2
      ⟨10050, [(123, ⟨123, Side.Bid, 10050, 100⟩)]⟩ rfl rfl⟩

/-- C7 (best-of-book and depth ordering): `best_bid` returns the numerically
highest bid price with that level's total quantity (`none` on an empty bid
side), `best_ask` the numerically lowest ask price (`none` on an empty ask
side); `top_n_bids n` lists up to `n` levels in strictly descending price
order and `top_n_asks n` up to `n` levels in strictly ascending price
order, each entry being a present level's (price, aggregate quantity), and
when at most `n` levels exist all of them are returned (no error is
possible: the functions are total). -/
theorem best_of_book {b : OrderBook} (hInv : b.Inv) (n : Nat) :
    (b.bids = [] → b.best_bid = none) ∧
    (b.bids ≠ [] → ∃ p lv, findVal p b.bids = some lv ∧
      b.best_bid = some (p, lv.total_qty) ∧
      ∀ q lv', findVal q b.bids = some lv' → q ≤ p) ∧
    (b.asks = [] → b.best_ask = none) ∧
    (b.asks ≠ [] → ∃ p lv, findVal p b.asks = some lv ∧
      b.best_ask = some (p, lv.total_qty) ∧
      ∀ q lv', findVal q b.asks = some lv' → p ≤ q) ∧
    ((b.top_n_bids n).Pairwise fun x y => y.1 < x.1) ∧
    ((b.top_n_bids n).length = min n b.bids.length) ∧
    (∀ x ∈ b.top_n_bids n, ∃ lv, findVal x.1 b.bids = some lv ∧
      x.2 = lv.total_qty) ∧
    (b.bids.length ≤ n →
      (b.top_n_bids n).map Prod.fst = (b.bids.map Prod.fst).reverse) ∧
    ((b.top_n_asks n).Pairwise fun x y => x.1 < y.1) ∧
    ((b.top_n_asks n).length = min n b.asks.length) ∧
    (∀ x ∈ b.top_n_asks n, ∃ lv, findVal x.1 b.asks = some lv ∧
      x.2 = lv.total_qty) ∧
    (b.asks.length ≤ n →
      (b.top_n_asks n).map Prod.fst = b.asks.map Prod.fst) := by
  have hsb : SortedKeys b.bids := hInv.sorted_levels .Bid
  have hsa : SortedKeys b.asks := hInv.sorted_levels .Ask
  refine ⟨?_, ?_, ?_, ?_, ?_, ?_, ?_, ?_, ?_, ?_, ?_, ?_⟩
  · intro h
    rw [OrderBook.best_bid, h]
    rfl
  · intro h
    obtain ⟨x, hx1, hx2, hx3⟩ := getLast_max hsb h
    refine ⟨x.1, x.2, findVal_of_mem hsb hx2, ?_, ?_⟩
    · rw [OrderBook.best_bid, hx1]
      rfl
    · intro q lv' hq
      exact hx3 (q, lv') (mem_of_findVal hq)
  · intro h
    rw [OrderBook.best_ask, h]
    rfl
  · intro h
    obtain ⟨x, hx1, hx2, hx3⟩ := head_min hsa h
    refine ⟨x.1, x.2, findVal_of_mem hsa hx2, ?_, ?_⟩
    · rw [OrderBook.best_ask, hx1]
      rfl
    · intro q lv' hq
      exact hx3 (q, lv') (mem_of_findVal hq)
  · rw [OrderBook.top_n_bids]
    have h1 : (b.bids.reverse.take n).Pairwise fun a c => c.1 < a.1 :=
      List.Pairwise.sublist (List.take_sublist _ _)
        (List.pairwise_reverse.mpr hsb)
    exact List.Pairwise.map _ (fun a c h => h) h1
  · rw [OrderBook.top_n_bids, List.length_map, List.length_take,
      List.length_reverse]
  · intro x hx
    rw [OrderBook.top_n_bids] at hx
    obtain ⟨p, hp, rfl⟩ := List.mem_map.mp hx
    have hpb : p ∈ b.bids := List.mem_reverse.mp (List.mem_of_mem_take hp)
    exact ⟨p.2, findVal_of_mem hsb hpb, rfl⟩
  · intro hlen
    rw [OrderBook.top_n_bids,
      List.take_of_length_le (by rw [List.length_reverse]; exact hlen)]
    simp [List.map_map, List.map_reverse, Function.comp]
  · rw [OrderBook.top_n_asks]
    have h1 : (b.asks.take n).Pairwise fun a c => a.1 < c.1 :=
      List.Pairwise.sublist (List.take_sublist _ _) hsa
    exact List.Pairwise.map _ (fun a c h => h) h1
  · rw [OrderBook.top_n_asks, List.length_map, List.length_take]
  · intro x hx
    rw [OrderBook.top_n_asks] at hx
    obtain ⟨p, hp, rfl⟩ := List.mem_map.mp hx
    exact ⟨p.2, findVal_of_mem hsa (List.mem_of_mem_take hp), rfl⟩
  · intro hlen
    rw [OrderBook.top_n_asks, List.take_of_length_le hlen]
    simp [List.map_map, Function.comp]

/-- Witness for C7: with two bid levels, `top_n_bids 2` has
min 2 2 = 2 entries. -/
theorem best_of_book_witness :
    ((runOps [Op.add ⟨1, Side.Bid, 10, 5⟩,
        Op.add ⟨2, Side.Bid, 20, 7⟩]).top_n_bids 2).length
      = min 2 (runOps [Op.add ⟨1, Side.Bid, 10, 5⟩,
          Op.add ⟨2, Side.Bid, 20, 7⟩]).bids.length :=
  (best_of_book (inv_runOps [Op.add ⟨1, Side.Bid, 10, 5⟩,
    Op.add ⟨2, Side.Bid, 20, 7⟩]) 2).2.2.2.2.2.1

/-- C8 counterexample: a duplicate `add_order` that relocates a resting
order across sides mutates BOTH sides, so the claim fails as stated for
`add_order`: re-adding id 1 (resting as a bid at price 100) as an ask-side
order changes the bid collection and `best_bid`, although the operation is
applied to an ask-side order. -/
theorem side_independence_cex :
    Order.side ⟨1, Side.Ask, 200, 5⟩ = Side.Ask ∧
    ((runOps [Op.add ⟨1, Side.Bid, 100, 10⟩]).add_order
        ⟨1, Side.Ask, 200, 5⟩).best_bid
      ≠ (runOps [Op.add ⟨1, Side.Bid, 100, 10⟩]).best_bid ∧
    ((runOps [Op.add ⟨1, Side.Bid, 100, 10⟩]).add_order
        ⟨1, Side.Ask, 200, 5⟩).bids
      ≠ (runOps [Op.add ⟨1, Side.Bid, 100, 10⟩]).bids := by
  refine ⟨rfl, ?_, ?_⟩ <;> decide

/-- C8 as amended: a mutation concerning an order on side `s` —
removing, modifying or filling an order resting on `s`, or adding an order
for side `s` whose identifier is fresh or currently rests on `s` — leaves
the opposite side's collection of price levels unchanged; and (last two
conjuncts) any book agreeing with `b` on a side's collection has the same
best-of-book on that side, so the opposite side's `best_bid`/`best_ask`
is unchanged by such mutations. -/
theorem side_independence {b : OrderBook} (hInv : b.Inv) (s : Side) :
    (∀ id o, b.get_order id = some o → o.side = s →
      ((b.remove_order id).2.levels s.other = b.levels s.other ∧
       (∀ q b2, b.modify_order id q = .ok b2 →
         b2.levels s.other = b.levels s.other) ∧
       (∀ q b2, b.fill_order id q = .ok b2 →
         b2.levels s.other = b.levels s.other))) ∧
    (∀ o2 : Order, o2.side = s →
      (b.get_order o2.order_id = none ∨
        (∃ oldO, b.get_order o2.order_id = some oldO ∧ oldO.side = s)) →
      (b.add_order o2).levels s.other = b.levels s.other) ∧
    (∀ b2 : OrderBook, b2.levels Side.Bid = b.levels Side.Bid →
      b2.best_bid = b.best_bid) ∧
    (∀ b2 : OrderBook, b2.levels Side.Ask = b.levels Side.Ask →
      b2.best_ask = b.best_ask) := by
  have hother : ∀ s0 : Side, s0 = s → s.other ≠ s0 := by
    intro s0 h
    rw [h]
    exact Side.other_ne s
  refine ⟨?_, ?_, ?_, ?_⟩
  · intro id o hget hside
    have hrem : (b.remove_order id).2.levels s.other = b.levels s.other := by
      obtain ⟨lv, hlv, ho, heq⟩ := OrderBook.remove_order_eq hInv hget
      rw [heq _ rfl]
      show ({ b.setLevels o.side
          (if (eraseKey id lv.orders).isEmpty then
            eraseKey o.price (b.levels o.side)
          else insertVal o.price { lv with orders := eraseKey id lv.orders }
            (b.levels o.side)) with
          order_index := eraseKey id b.order_index } : OrderBook).levels s.other
        = b.levels s.other
      rw [OrderBook.levels_set_index,
        OrderBook.levels_setLevels_other _ _ (hother o.side hside)]
    have hmod : ∀ q b2, b.modify_order id q = .ok b2 →
        b2.levels s.other = b.levels s.other := by
      intro q b2 h
      obtain ⟨lv, hlv, ho, heq⟩ := OrderBook.modify_order_eq hInv hget q
      rw [heq] at h
      obtain rfl := Except.ok.inj h
      rw [OrderBook.levels_setLevels_other _ _ (hother o.side hside)]
    refine ⟨hrem, hmod, ?_⟩
    intro q b2 h
    by_cases hlt : o.size < q
    · rw [OrderBook.fill_order_exceeds hget hlt] at h
      exact absurd h (by simp)
    · by_cases hz : o.size - q = 0
      · rw [OrderBook.fill_order_full hget hlt hz] at h
        obtain rfl := Except.ok.inj h
        exact hrem
      · rw [OrderBook.fill_order_partial hget hlt hz] at h
        exact hmod _ _ h
  · intro o2 hside2 hcase
    have hadd : b.add_order o2 = (b.removeExisting o2.order_id).insertNew o2 :=
      rfl
    rcases hcase with hnone | ⟨oldO, holdget, holdside⟩
    · have hidxn : findVal o2.order_id b.order_index = none :=
        (hInv.get_order_none_iff o2.order_id).mp hnone
      rw [hadd, OrderBook.removeExisting_absent hidxn,
        OrderBook.insertNew_levels_other _ _ (hother o2.side hside2)]
    · obtain ⟨lv, hlv, ho, heqX⟩ := OrderBook.removeExisting_eq hInv holdget
      rw [hadd,
        OrderBook.insertNew_levels_other _ _ (hother o2.side hside2), heqX,
        OrderBook.levels_setLevels_other _ _ (hother oldO.side holdside)]
  · intro b2 h
    exact OrderBook.best_bid_eq_of_bids h
  · intro b2 h
    exact OrderBook.best_ask_eq_of_asks h

/-- Witness for C8: removing the only ask order leaves the bid side (the
other side) untouched. -/
theorem side_independence_witness :
    (((runOps [Op.add ⟨1, Side.Bid, 100, 10⟩,
        Op.add ⟨2, Side.Ask, 200, 5⟩]).remove_order 2).2).levels Side.Ask.other
      = (runOps [Op.add ⟨1, Side.Bid, 100, 10⟩,
          Op.add ⟨2, Side.Ask, 200, 5⟩]).levels Side.Ask.other :=
  ((side_independence (inv_runOps [Op.add ⟨1, Side.Bid, 100, 10⟩,
      Op.add ⟨2, Side.Ask, 200, 5⟩]) Side.Ask).1 2 ⟨2, Side.Ask, 200, 5⟩
    rfl rfl).1

/-- Witness for C10 at a concrete one-order book. -/
theorem index_never_dangles_witness :
    ((runOps [Op.add ⟨1, Side.Bid, 100, 10⟩]).get_order 1).isSome ∧
    ((runOps [Op.add ⟨1, Side.Bid, 100, 10⟩]).remove_order 1).1.isSome :=
  ⟨(index_never_dangles [Op.add ⟨1, Side.Bid, 100, 10⟩] 1 100 rfl).1,
   (index_never_dangles [Op.add ⟨1, Side.Bid, 100, 10⟩] 1 100 rfl).2.2⟩

example :
    (runOps [.add ⟨123, .Bid, 10050, 100⟩]).best_bid = some (10050, 100) := by
  decide

example :
    (runOps [.add ⟨123, .Bid, 10050, 100⟩, .add ⟨123, .Bid, 10051, 150⟩]).top_n_bids 2
      = [(10051, 150)] := by
  decide

example :
    (runOps [.add ⟨123, .Bid, 10050, 100⟩]).fill_order 123 150
      = .error (.FillQuantityExceedsOrderSize 150 100) := rfl

example :
    (runOps [.add ⟨123, .Bid, 10050, 100⟩, .add ⟨124, .Bid, 10050, 50⟩,
      .remove 123, .remove 124]).best_bid = none := by
  decide

example :
    (runOps [.add ⟨123, .Bid, 10050, 100⟩, .add ⟨124, .Ask, 10052, 50⟩,
      .fill 123 40, .fill 123 60]) = runOps [.add ⟨124, .Ask, 10052, 50⟩] := by
  decide

example :
    (runOps [.add ⟨1, .Bid, 100, 0⟩]).fill_order 1 0 = .ok OrderBook.empty := rfl

end Rainybook
